import Mathlib

/-!
Verification development for the PDF-analysis chat bot (`bot.py`).

The source is a single Python file.  The parts the specification's claims are
about are embedded shallowly below, over `List Char` for text and plain
structures for the per-user session state:

* `sanitize_html`        — the Markup Sanitizer (`SimplePDFBot.sanitize_html`);
* `chunk_contents` / `sent_messages`
                         — the Message Chunker (`split_and_send_long_message`);
* `send_safe_message`    — the Safe Delivery Gateway, with the transport
                           modelled as an oracle giving each attempt's outcome;
* `Session`, `handle_callback_query`, `handle_pdf_success`, `stepSession`
                         — the session state machine;
* `cleanup_messages`     — the Message Cleanup Policy;
* `safe_callback_data` / `get_filename_from_id`
                         — the truncated-identifier reverse lookup (Python's
                           builtin `hash` is a parameter `h`, since it is
                           process-seeded).

Python regular-expression substitutions are embedded as explicit left-to-right
scanners (`scanRewrite`): at each position the specific pattern is tried; on a
match the replacement is emitted (not rescanned, as with `re.sub`) and scanning
resumes after the matched region.  Each scanner's step consumes at least one
character whenever it fires, so the `l.length` fuel is never exhausted.
-/

namespace PDFBot

/-- Newline character. -/
def nlChar : Char := Char.ofNat 10

/-- Double quote character. -/
def quoteChar : Char := Char.ofNat 34

/-- Apostrophe character. -/
def aposChar : Char := Char.ofNat 39

/-- Characters matched by Python's `\s` in unicode (str) mode:
the ASCII whitespace characters together with the Unicode whitespace set. -/
def pySpace (c : Char) : Bool :=
  c == ' ' || c == Char.ofNat 9 || c == nlChar || c == Char.ofNat 13 ||
  c == Char.ofNat 11 || c == Char.ofNat 12 ||
  c == Char.ofNat 28 || c == Char.ofNat 29 || c == Char.ofNat 30 || c == Char.ofNat 31 ||
  c == Char.ofNat 133 || c == Char.ofNat 160 || c == Char.ofNat 5760 ||
  (8192 ≤ c.toNat && c.toNat ≤ 8202) ||
  c == Char.ofNat 8232 || c == Char.ofNat 8233 || c == Char.ofNat 8239 ||
  c == Char.ofNat 8287 || c == Char.ofNat 12288

/-- Match a literal pattern at the head of the input; on success return the
rest of the input after the pattern. -/
def matchPre : List Char → List Char → Option (List Char)
  | [], l => some l
  | _ :: _, [] => none
  | p :: ps, c :: cs => if p == c then matchPre ps cs else none

/-- Generic left-to-right rewriting scan, the shape shared by Python's
`re.sub` and `str.replace`: at each position try `step`; if it fires, emit its
output (never rescanned) and continue after the consumed region, otherwise
keep the character and move on.  `fuel` bounds the number of iterations; every
use below passes the input length, which suffices because every step consumes
at least one character. -/
def scanRewrite (step : List Char → Option (List Char × List Char)) :
    Nat → List Char → List Char
  | _, [] => []
  | 0, l => l
  | fuel + 1, c :: rest =>
    match step (c :: rest) with
    | some (out, rem) => out ++ scanRewrite step fuel rem
    | none => c :: scanRewrite step fuel rest

/-- Python `str.replace`: replace every (leftmost, non-overlapping)
occurrence of `pat` by `repl`. -/
def replaceAll (pat repl l : List Char) : List Char :=
  scanRewrite (fun s => (matchPre pat s).map fun r => (repl, r)) l.length l

/-- Python `pat in s` substring test. -/
def containsSub (pat : List Char) : List Char → Bool
  | [] => pat.isEmpty
  | c :: rest => (matchPre pat (c :: rest)).isSome || containsSub pat rest

/-- Split the input at the first occurrence of `pat`: returns the part before
the occurrence and the part after it. -/
def splitAtSub (pat : List Char) : List Char → Option (List Char × List Char)
  | [] => if pat.isEmpty then some ([], []) else none
  | c :: rest =>
    match matchPre pat (c :: rest) with
    | some r => some ([], r)
    | none => (splitAtSub pat rest).map fun p => (c :: p.1, p.2)

/-- Match the regex `<{tag}[^>]*>` at the head of the input; on success
return the rest of the input after the closing `>`. -/
def tryOpen (tag : List Char) (l : List Char) : Option (List Char) :=
  match matchPre ('<' :: tag) l with
  | some r =>
    match r.dropWhile (fun c => c != '>') with
    | '>' :: rest => some rest
    | _ => none
  | none => none

/-- One character of Python's `html.escape(s)` (with `quote=True`):
`&`, `<`, `>`, `"` and the apostrophe become entities, all else is kept. -/
def escapeChar (c : Char) : List Char :=
  if c == '&' then ['&', 'a', 'm', 'p', ';']
  else if c == '<' then ['&', 'l', 't', ';']
  else if c == '>' then ['&', 'g', 't', ';']
  else if c == quoteChar then ['&', 'q', 'u', 'o', 't', ';']
  else if c == aposChar then ['&', '#', 'x', '2', '7', ';']
  else [c]

/-- Python `html.escape(text)` as used at the top of `sanitize_html`. -/
def htmlEscape (l : List Char) : List Char := (l.map escapeChar).flatten

/-- The allow-listed inline tags un-escaped by `sanitize_html`
(`for tag in ['b', 'i', 'u', 's', 'code', 'pre', 'a']`). -/
def allowedTags : List (List Char) :=
  [['b'], ['i'], ['u'], ['s'], ['c', 'o', 'd', 'e'], ['p', 'r', 'e'], ['a']]

/-- Step of the attribute-carrying un-escape
`re.sub(f'&lt;{tag}\\s+([^&]*)&gt;', f'<{tag} \\1>', text)`:
after `&lt;{tag}` a maximal nonempty whitespace run is consumed, the capture
runs to the next `&`, which must start a literal `&gt;`. -/
def attrStep (tag : List Char) (l : List Char) : Option (List Char × List Char) :=
  match matchPre (['&', 'l', 't', ';'] ++ tag) l with
  | some r1 =>
    match r1 with
    | c :: _ =>
      if pySpace c then
        let r2 := r1.dropWhile pySpace
        let cap := r2.takeWhile (fun d => d != '&')
        let r3 := r2.dropWhile (fun d => d != '&')
        match matchPre ['&', 'g', 't', ';'] r3 with
        | some r4 => some ('<' :: tag ++ ' ' :: cap ++ ['>'], r4)
        | none => none
      else none
    | [] => none
  | none => none

/-- The attribute-carrying un-escape for one tag. -/
def attrUnescape (tag : List Char) (l : List Char) : List Char :=
  scanRewrite (attrStep tag) l.length l

/-- One iteration of the allow-list loop in `sanitize_html`: un-escape the
bare open tag, the close tag, then tags with attributes. -/
def unescapeTag (t : List Char) (tag : List Char) : List Char :=
  attrUnescape tag
    (replaceAll (['&', 'l', 't', ';', '/'] ++ tag ++ ['&', 'g', 't', ';'])
      ('<' :: '/' :: tag ++ ['>'])
      (replaceAll (['&', 'l', 't', ';'] ++ tag ++ ['&', 'g', 't', ';'])
        ('<' :: tag ++ ['>']) t))

/-- Step of the link un-escape
`re.sub(r'&lt;a\s+href=&quot;([^&]*)&quot;&gt;', r'<a href="\1">', text)`. -/
def linkStep (l : List Char) : Option (List Char × List Char) :=
  match matchPre ['&', 'l', 't', ';', 'a'] l with
  | some r1 =>
    match r1 with
    | c :: _ =>
      if pySpace c then
        let r2 := r1.dropWhile pySpace
        match matchPre (['h', 'r', 'e', 'f', '='] ++ ['&', 'q', 'u', 'o', 't', ';']) r2 with
        | some r3 =>
          let cap := r3.takeWhile (fun d => d != '&')
          let r4 := r3.dropWhile (fun d => d != '&')
          match matchPre ['&', 'q', 'u', 'o', 't', ';', '&', 'g', 't', ';'] r4 with
          | some r5 =>
            some (['<', 'a', ' ', 'h', 'r', 'e', 'f', '='] ++
              quoteChar :: cap ++ quoteChar :: ['>'], r5)
          | none => none
        | none => none
      else none
    | [] => none
  | none => none

/-- The link un-escape pass. -/
def linkUnescape (l : List Char) : List Char := scanRewrite linkStep l.length l

/-- Step for `re.sub(f'<{tag}[^>]*>(.*?)</{tag}>', r'\1', text, flags=re.DOTALL)`:
the tag pair is removed and the (lazily matched) content kept. -/
def pairedKeepStep (tag : List Char) (l : List Char) : Option (List Char × List Char) :=
  match tryOpen tag l with
  | some afterOpen =>
    match splitAtSub ('<' :: '/' :: tag ++ ['>']) afterOpen with
    | some (content, rem) => some (content, rem)
    | none => none
  | none => none

/-- Remove a paired tag, keeping its content. -/
def pairedKeep (tag : List Char) (l : List Char) : List Char :=
  scanRewrite (pairedKeepStep tag) l.length l

/-- Step for `re.sub(f'<{tag}[^>]*>', repl, text)`. -/
def openTagStep (tag repl : List Char) (l : List Char) : Option (List Char × List Char) :=
  (tryOpen tag l).map fun rem => (repl, rem)

/-- Replace every open tag `<{tag}...>` by `repl` (used with `repl = []` for
removal, and with `repl = "\n"` for the `br` rule). -/
def subOpenWith (tag repl : List Char) (l : List Char) : List Char :=
  scanRewrite (openTagStep tag repl) l.length l

/-- Remove every literal close tag `</{tag}>` (`re.sub(f'</{tag}>', '', text)`). -/
def removeCloseTag (tag : List Char) (l : List Char) : List Char :=
  replaceAll ('<' :: '/' :: tag ++ ['>']) [] l

/-- Step for
`re.sub(f'<{tag}[^>]*>(.*?)</{tag}>', f'<{repl}>\\1</{repl}>', text, flags=re.DOTALL)`. -/
def pairedWrapStep (tag repl : List Char) (l : List Char) : Option (List Char × List Char) :=
  match tryOpen tag l with
  | some afterOpen =>
    match splitAtSub ('<' :: '/' :: tag ++ ['>']) afterOpen with
    | some (content, rem) =>
      some ('<' :: repl ++ '>' :: content ++ '<' :: '/' :: repl ++ ['>'], rem)
    | none => none
  | none => none

/-- Rewrite a paired tag into the replacement tag. -/
def pairedWrap (tag repl : List Char) (l : List Char) : List Char :=
  scanRewrite (pairedWrapStep tag repl) l.length l

/-- The `unsupported_tags` table of `SimplePDFBot.__init__`, in dict order
(the `hr` replacement characters are the source file's own mojibake bytes). -/
def unsupported_tags : List (List Char × Option (List Char)) := [
  (['s', 'u', 'b'], some ['_']),
  (['s', 'u', 'p'], some ['^']),
  (['h', '1'], some ['b']),
  (['h', '2'], some ['b']),
  (['h', '3'], some ['b']),
  (['h', '4'], some ['b']),
  (['h', '5'], some ['b']),
  (['h', '6'], some ['b']),
  (['e', 'm'], some ['i']),
  (['s', 't', 'r', 'o', 'n', 'g'], some ['b']),
  (['t', 'a', 'b', 'l', 'e'], none),
  (['t', 'r'], none),
  (['t', 'd'], none),
  (['t', 'h'], none),
  (['t', 'h', 'e', 'a', 'd'], none),
  (['t', 'b', 'o', 'd', 'y'], none),
  (['d', 'i', 'v'], none),
  (['s', 'p', 'a', 'n'], none),
  (['p'], none),
  (['b', 'r'], some [nlChar]),
  (['h', 'r'], some [nlChar, Char.ofNat 226, Char.ofNat 8364, Char.ofNat 8221, Char.ofNat 226, Char.ofNat 8364, Char.ofNat 8221, Char.ofNat 226, Char.ofNat 8364, Char.ofNat 8221, Char.ofNat 226, Char.ofNat 8364, Char.ofNat 8221, Char.ofNat 226, Char.ofNat 8364, Char.ofNat 8221, nlChar]),
  (['i', 'm', 'g'], some ['[', 'I', 'M', 'A', 'G', 'E', ']']),
  (['f', 'i', 'g', 'u', 'r', 'e'], none),
  (['f', 'i', 'g', 'c', 'a', 'p', 't', 'i', 'o', 'n'], some ['i'])
]

/-- One iteration of the unsupported-tag loop in `sanitize_html`:
`None` removes the tag keeping the content (paired form first, then stray
open and close tags); the replacement `"\n"` substitutes only open tags;
any other replacement rewrites the paired form into the replacement tag. -/
def applyRule (t : List Char) (rule : List Char × Option (List Char)) : List Char :=
  match rule.2 with
  | none => removeCloseTag rule.1 (subOpenWith rule.1 [] (pairedKeep rule.1 t))
  | some repl =>
    if repl == [nlChar] then subOpenWith rule.1 repl t
    else pairedWrap rule.1 repl t

/-- The `math_replacements` dict of `sanitize_html`, in dict order with
Python's duplicate-key semantics already applied (the mojibake for the
infinity, product and proportional-to symbols coincide, so the last value,
`"prop to"`, wins at the first key's position). -/
def math_replacements : List (List Char × List Char) := [
  (['<', 's', 'u', 'b', '>'], ['_']),
  (['<', '/', 's', 'u', 'b', '>'], []),
  (['<', 's', 'u', 'p', '>'], ['^']),
  (['<', '/', 's', 'u', 'p', '>'], []),
  ([Char.ofNat 206, Char.ofNat 177], ['a', 'l', 'p', 'h', 'a']),
  ([Char.ofNat 206, Char.ofNat 178], ['b', 'e', 't', 'a']),
  ([Char.ofNat 206, Char.ofNat 179], ['g', 'a', 'm', 'm', 'a']),
  ([Char.ofNat 206, Char.ofNat 180], ['d', 'e', 'l', 't', 'a']),
  ([Char.ofNat 206, Char.ofNat 181], ['e', 'p', 's', 'i', 'l', 'o', 'n']),
  ([Char.ofNat 206, Char.ofNat 184], ['t', 'h', 'e', 't', 'a']),
  ([Char.ofNat 206, Char.ofNat 187], ['l', 'a', 'm', 'b', 'd', 'a']),
  ([Char.ofNat 206, Char.ofNat 188], ['m', 'u']),
  ([Char.ofNat 207, Char.ofNat 8364], ['p', 'i']),
  ([Char.ofNat 207, Char.ofNat 402], ['s', 'i', 'g', 'm', 'a']),
  ([Char.ofNat 207, Char.ofNat 8222], ['t', 'a', 'u']),
  ([Char.ofNat 207, Char.ofNat 8224], ['p', 'h', 'i']),
  ([Char.ofNat 207, Char.ofNat 8240], ['o', 'm', 'e', 'g', 'a']),
  ([Char.ofNat 194, Char.ofNat 177], ['+', '/', '-']),
  ([Char.ofNat 195, Char.ofNat 8212], ['x']),
  ([Char.ofNat 195, Char.ofNat 183], ['/']),
  ([Char.ofNat 226, Char.ofNat 8240, Char.ofNat 710], ['~', '=']),
  ([Char.ofNat 226, Char.ofNat 8240, Char.ofNat 160], ['!', '=']),
  ([Char.ofNat 226, Char.ofNat 8240, Char.ofNat 164], ['<', '=']),
  ([Char.ofNat 226, Char.ofNat 8240, Char.ofNat 165], ['>', '=']),
  ([Char.ofNat 226, Char.ofNat 710], ['p', 'r', 'o', 'p', ' ', 't', 'o']),
  ([Char.ofNat 226, Char.ofNat 710, Char.ofNat 8216], ['s', 'u', 'm']),
  ([Char.ofNat 226, Char.ofNat 710, Char.ofNat 171], ['i', 'n', 't']),
  ([Char.ofNat 226, Char.ofNat 710, Char.ofNat 8218], ['p', 'a', 'r', 't', 'i', 'a', 'l']),
  ([Char.ofNat 226, Char.ofNat 710, Char.ofNat 353], ['s', 'q', 'r', 't']),
  ([Char.ofNat 226, Char.ofNat 710, Char.ofNat 8250], ['c', 'b', 'r', 't'])
]

/-- Step for the table-row rewrite
`re.sub(r'<tr[^>]*>(.*?)</tr>', r'\1\n', table_content, flags=re.DOTALL)`. -/
def rowStep (l : List Char) : Option (List Char × List Char) :=
  match tryOpen ['t', 'r'] l with
  | some afterOpen =>
    match splitAtSub ['<', '/', 't', 'r', '>'] afterOpen with
    | some (content, rem) => some (content ++ [nlChar], rem)
    | none => none
  | none => none

/-- The table-row rewrite pass. -/
def rowSub (l : List Char) : List Char := scanRewrite rowStep l.length l

/-- Match the close pattern `</t[hd]>` at the head of the input. -/
def matchTHDClose : List Char → Option (List Char)
  | '<' :: '/' :: 't' :: x :: '>' :: r => if x == 'h' || x == 'd' then some r else none
  | _ => none

/-- Match the open pattern `<t[hd][^>]*>` at the head of the input. -/
def matchTHDOpen (l : List Char) : Option (List Char) :=
  match l with
  | '<' :: 't' :: x :: r =>
    if x == 'h' || x == 'd' then
      match r.dropWhile (fun c => c != '>') with
      | '>' :: rest => some rest
      | _ => none
    else none
  | _ => none

/-- Split the input at the first occurrence of `</t[hd]>`. -/
def splitAtTHD : List Char → Option (List Char × List Char)
  | [] => none
  | c :: rest =>
    match matchTHDClose (c :: rest) with
    | some r => some ([], r)
    | none => (splitAtTHD rest).map fun p => (c :: p.1, p.2)

/-- Step for the table-cell rewrite
`re.sub(r'<t[hd][^>]*>(.*?)</t[hd]>', r'\1\t', table_content, flags=re.DOTALL)`. -/
def cellStep (l : List Char) : Option (List Char × List Char) :=
  match matchTHDOpen l with
  | some afterOpen =>
    match splitAtTHD afterOpen with
    | some (content, rem) => some (content ++ [Char.ofNat 9], rem)
    | none => none
  | none => none

/-- The table-cell rewrite pass. -/
def cellSub (l : List Char) : List Char := scanRewrite cellStep l.length l

/-- All matches of `<table[^>]*>(.*?)</table>` (as `re.finditer` enumerates
them over the unmodified text): each match is returned as the pair of its
whole matched region (`group(0)`) and its content (`group(1)`). -/
def tableMatches : Nat → List Char → List (List Char × List Char)
  | _, [] => []
  | 0, _ => []
  | fuel + 1, c :: rest =>
    match pairedKeepStep ['t', 'a', 'b', 'l', 'e'] (c :: rest) with
    | some (content, rem) =>
      let whole := (c :: rest).take ((c :: rest).length - rem.length)
      (whole, content) :: tableMatches fuel rem
    | none => tableMatches fuel rest

/-- The table-handling block of `sanitize_html`: when `'<table' in text`,
each table match (over the text as it was when the block started) is
row- and cell-flattened and then `str.replace`d into the evolving text,
framed by newlines. -/
def tableFix (t : List Char) : List Char :=
  if containsSub ['<', 't', 'a', 'b', 'l', 'e'] t then
    (tableMatches t.length t).foldl
      (fun acc m => replaceAll m.1 (nlChar :: cellSub (rowSub m.2) ++ [nlChar]) acc) t
  else t

/-- Step for the final residual strip `re.sub(r'<[^>]+>', '', text)`. -/
def stripStep (l : List Char) : Option (List Char × List Char) :=
  match l with
  | '<' :: rest =>
    let inner := rest.takeWhile (fun c => c != '>')
    match rest.dropWhile (fun c => c != '>') with
    | '>' :: r => if inner.isEmpty then none else some ([], r)
    | _ => none
  | _ => none

/-- The final residual tag strip. -/
def stripTags (l : List Char) : List Char := scanRewrite stripStep l.length l

/-- Step for `re.sub(r'\n\s*\n', '\n\n', text)`: a newline whose following
maximal whitespace run contains another newline matches up to the last
newline of that run (the greedy `\s*` backtracks to the last `\n`). -/
def nl1Step (l : List Char) : Option (List Char × List Char) :=
  match l with
  | c :: rest =>
    if c == nlChar then
      let run := rest.takeWhile pySpace
      if run.contains nlChar then
        let tailLen := (run.reverse.takeWhile (fun d => d != nlChar)).length
        some ([nlChar, nlChar], rest.drop (run.length - tailLen))
      else none
    else none
  | [] => none

/-- The paragraph-break normalization pass. -/
def nlNorm1 (l : List Char) : List Char := scanRewrite nl1Step l.length l

/-- Step for `re.sub(r'\n{3,}', '\n\n', text)`. -/
def nl2Step (l : List Char) : Option (List Char × List Char) :=
  match l with
  | c1 :: c2 :: c3 :: rest =>
    if c1 == nlChar && c2 == nlChar && c3 == nlChar then
      some ([nlChar, nlChar], rest.dropWhile (fun d => d == nlChar))
    else none
  | _ => none

/-- The newline-run collapse pass. -/
def nlNorm2 (l : List Char) : List Char := scanRewrite nl2Step l.length l

/-- The Markup Sanitizer, `SimplePDFBot.sanitize_html`, stage by stage in the
source's order: empty guard, `html.escape`, allow-list un-escape, link
un-escape, unsupported-tag replacement, restoring all remaining `&lt;`/`&gt;`,
math replacements, table flattening, residual tag strip, and the two
newline normalizations. -/
def sanitize_html (text : List Char) : List Char :=
  if text.isEmpty then [] else
  let t1 := htmlEscape text
  let t2 := allowedTags.foldl unescapeTag t1
  let t3 := linkUnescape t2
  let t4 := unsupported_tags.foldl applyRule t3
  let t5 := replaceAll ['&', 'g', 't', ';'] ['>']
    (replaceAll ['&', 'l', 't', ';'] ['<'] t4)
  let t6 := math_replacements.foldl (fun t kv => replaceAll kv.1 kv.2 t) t5
  let t7 := tableFix t6
  let t8 := stripTags t7
  nlNorm2 (nlNorm1 t8)

/-- Python `text.split('\n\n')`: split on each leftmost occurrence of the
two-newline separator. -/
def splitParas : List Char → List (List Char)
  | [] => [[]]
  | c1 :: c2 :: rest =>
    if c1 == nlChar && c2 == nlChar then [] :: splitParas rest
    else
      match splitParas (c2 :: rest) with
      | s :: ss => (c1 :: s) :: ss
      | [] => [[c1]]
  | [c] => [[c]]

/-- Join a list of blocks with the two-newline paragraph separator
(the inverse direction of `splitParas`). -/
def joinParas : List (List Char) → List Char
  | [] => []
  | [c] => c
  | c :: rest => c ++ nlChar :: nlChar :: joinParas rest

/-- The paragraph-packing loop of `split_and_send_long_message`: paragraphs
are greedily packed into `cur`; when the next one would overflow
(`len(current_chunk) + len(paragraph) + 2 > max_length`) the current chunk is
pushed (if nonempty) and the paragraph starts a fresh chunk. -/
def packLoop (maxLen : Nat) : List (List Char) → List (List Char) → List Char → List (List Char)
  | [], chunks, cur => if cur.isEmpty then chunks else chunks ++ [cur]
  | p :: ps, chunks, cur =>
    if cur.length + p.length + 2 > maxLen then
      packLoop maxLen ps (if cur.isEmpty then chunks else chunks ++ [cur]) p
    else
      packLoop maxLen ps chunks (if cur.isEmpty then p else cur ++ nlChar :: nlChar :: p)

/-- The first-phase chunks of `split_and_send_long_message`. -/
def paraChunks (text : List Char) (maxLen : Nat) : List (List Char) :=
  packLoop maxLen (splitParas text) [] []

/-- Python `re.split(r'(?<=[.!?])\s+', chunk)`: each maximal whitespace run
preceded by `.`, `!` or `?` is a (consumed) separator.  `prev` is the
character before the current position. -/
def sentGo (prev : Char) : Nat → List Char → List (List Char)
  | _, [] => [[]]
  | 0, l => [l]
  | fuel + 1, c :: rest =>
    if pySpace c && (prev == '.' || prev == '!' || prev == '?') then
      [] :: sentGo ' ' fuel ((c :: rest).dropWhile pySpace)
    else
      match sentGo c fuel rest with
      | s :: ss => (c :: s) :: ss
      | [] => [[c]]

/-- Sentence split of one oversized chunk (the separator branch consumes at
least one character, so the `l.length` fuel is never exhausted). -/
def sentSplit (l : List Char) : List (List Char) := sentGo ' ' l.length l

/-- Python `sentence[i:i+max_length] for i in range(0, len(sentence), max_length)`:
the hard character split of a single oversized sentence.  (With step `0`
Python raises; the claims only concern a positive maximum.) -/
def hardSplit (m : Nat) (l : List Char) : List (List Char) :=
  if l.isEmpty then [] else
  if m == 0 then [] else
  l.take m :: hardSplit m (l.drop m)
termination_by l.length
decreasing_by
  rename_i h1 h2
  simp [List.isEmpty_iff] at h1
  simp [List.length_drop]
  cases l with
  | nil => simp_all
  | cons c rest =>
    simp at h2 ⊢
    omega

/-- The sentence-packing loop of `split_and_send_long_message`.  Note the
faithful slip of the source: when a single sentence exceeds the maximum its
hard-split pieces are appended but `sub_chunk` is not cleared, so a stale
`sub_chunk` can be appended again later. -/
def sentLoop (maxLen : Nat) : List (List Char) → List (List Char) → List Char →
    List (List Char) × List Char
  | [], final, sub => (final, sub)
  | s :: rest, final, sub =>
    if sub.length + s.length + 1 > maxLen then
      let final1 := if sub.isEmpty then final else final ++ [sub]
      if s.length > maxLen then
        sentLoop maxLen rest (final1 ++ hardSplit maxLen s) sub
      else
        sentLoop maxLen rest final1 s
    else
      sentLoop maxLen rest final (if sub.isEmpty then s else sub ++ ' ' :: s)

/-- Second-phase splitting of one first-phase chunk that is still too long. -/
def sentencePack (maxLen : Nat) (chunk : List Char) : List (List Char) :=
  let r := sentLoop maxLen (sentSplit chunk) [] []
  if r.2.isEmpty then r.1 else r.1 ++ [r.2]

/-- The final chunk list of `split_and_send_long_message` (second phase:
first-phase chunks that fit are kept, the others are sentence-split). -/
def finalChunks (text : List Char) (maxLen : Nat) : List (List Char) :=
  ((paraChunks text maxLen).map
    (fun c => if c.length ≤ maxLen then [c] else sentencePack maxLen c)).flatten

/-- The chunk contents produced for a text: the single chunk of the short
path (`len(text) <= max_length`), or the final chunks of the long path. -/
def chunk_contents (text : List Char) (maxLen : Nat) : List (List Char) :=
  if text.length ≤ maxLen then [text] else finalChunks text maxLen

def part_label_mid : List Char :=
  [' ', '(', 'p', 'h', Char.ofNat 225, Char.ofNat 186, Char.ofNat 167, 'n', ' ']

def part_label_plain : List Char :=
  ['P', 'h', Char.ofNat 225, Char.ofNat 186, Char.ofNat 167, 'n', ' ']


/-- The per-chunk part label of `split_and_send_long_message`:
`f"{title} (phần {i+1}/{n})"` when a title was given, else `f"Phần {i+1}/{n}"`
(the non-ASCII characters are the source file's own mojibake bytes; `i` is the
0-based chunk index). -/
def partTitle (title : List Char) (i n : Nat) : List Char :=
  if title.isEmpty then
    part_label_plain ++ (Nat.repr (i + 1)).toList ++ '/' :: (Nat.repr n).toList
  else
    title ++ part_label_mid ++ (Nat.repr (i + 1)).toList ++ '/' :: (Nat.repr n).toList ++ [')']

/-- The texts actually sent by `split_and_send_long_message`: on the short
path a single message (title-prefixed when a title was given), on the long
path one message per chunk, each prefixed by its part label. -/
def sent_messages (text title : List Char) (maxLen : Nat) : List (List Char) :=
  if text.length ≤ maxLen then
    [if title.isEmpty then text else title ++ nlChar :: nlChar :: text]
  else
    let fc := finalChunks text maxLen
    ((List.range fc.length).zip fc).map
      (fun ic => partTitle title ic.1 fc.length ++ nlChar :: nlChar :: ic.2)

/-- Outcome of one transport attempt (`send_message`): success with a message
id, a `BadRequest` with its message string, or a non-`BadRequest` error. -/
inductive SendOutcome where
  | ok (messageId : Nat)
  | badRequest (msg : List Char)
  | otherError (msg : List Char)
deriving DecidableEq

/-- One transport call made by the gateway: the text passed and whether
`parse_mode=ParseMode.HTML` was used (`false` is `parse_mode=None`). -/
structure SendCall where
  text : List Char
  htmlMode : Bool
deriving DecidableEq

/-- The substring tested by `if "Can't parse entities" in str(e)`. -/
def cantParseEntities : List Char :=
  ['C', 'a', 'n', aposChar, 't', ' ', 'p', 'a', 'r', 's', 'e', ' ',
   'e', 'n', 't', 'i', 't', 'i', 'e', 's']

/-- The Safe Delivery Gateway, `SimplePDFBot.send_safe_message`.  The
transport is an oracle from the attempt index to its outcome.  Faithful to the
source: attempt 1 sends `text` with HTML; a `BadRequest` whose message
contains the parse-failure substring triggers attempt 2 with the sanitized
text and HTML; any `BadRequest` there (the inner handler catches them all)
triggers attempt 3 with the sanitized text and no parse mode, whose outcome is
returned or raised as is; a first-attempt `BadRequest` without the substring
is re-raised, and non-`BadRequest` errors propagate uncaught.  Returns the
result together with the list of transport calls made. -/
def send_safe_message (oracle : Nat → SendOutcome) (text : List Char) :
    Except SendOutcome Nat × List SendCall :=
  match oracle 0 with
  | .ok m => (.ok m, [⟨text, true⟩])
  | .badRequest msg =>
    if containsSub cantParseEntities msg then
      let sanitized := sanitize_html text
      match oracle 1 with
      | .ok m => (.ok m, [⟨text, true⟩, ⟨sanitized, true⟩])
      | .badRequest _ =>
        (match oracle 2 with
         | .ok m => .ok m
         | e => .error e,
         [⟨text, true⟩, ⟨sanitized, true⟩, ⟨sanitized, false⟩])
      | .otherError m2 => (.error (.otherError m2), [⟨text, true⟩, ⟨sanitized, true⟩])
    else (.error (.badRequest msg), [⟨text, true⟩])
  | .otherError msg => (.error (.otherError msg), [⟨text, true⟩])

/-- Per-user session state, the fields of `self.user_data[user_id]` the
claims are about.  `files` is the insertion-ordered dict from file name to
the opaque backend file reference (modelled as `Nat`); `compare_selection`
defaults to the empty list, matching `.get("compare_selection", [])`. -/
structure Session where
  files : List (String × Nat)
  current_file : Option String
  language : String
  compare_selection : List String
deriving DecidableEq

/-- The key list of the `files` dict. -/
def keys (files : List (String × Nat)) : List String := files.map Prod.fst

/-- Dict lookup `files[name]` (total here with default `0`; in the source a
missing key would raise `KeyError`). -/
def lookupFile (files : List (String × Nat)) (name : String) : Nat :=
  match files.find? (fun p => p.1 == name) with
  | some p => p.2
  | none => 0

/-- Dict update-or-insert `files[name] = ref`: an existing key keeps its
position, a new key is appended. -/
def upsert (files : List (String × Nat)) (name : String) (ref : Nat) :
    List (String × Nat) :=
  if (keys files).contains name then
    files.map (fun p => if p.1 == name then (name, ref) else p)
  else files ++ [(name, ref)]

/-- Dict deletion `del files[name]`. -/
def eraseKey (files : List (String × Nat)) (name : String) : List (String × Nat) :=
  files.filter (fun p => p.1 != name)

/-- Python `s.startswith(pre)`, character-wise. -/
def pyStartswith (s pre : String) : Bool := pre.toList.isPrefixOf s.toList

/-- Python character slicing `s[:n]`. -/
def strTake (s : String) (n : Nat) : String := String.mk (s.toList.take n)

/-- Python character slicing `s[n:]`. -/
def strDrop (s : String) (n : Nat) : String := String.mk (s.toList.drop n)

/-- `SimplePDFBot._safe_callback_data`: file names of at most 32 characters
are used verbatim; longer ones are truncated to 28 characters plus an
underscore and `str(hash(file_name) % 10000)`.  Python's `hash` is
process-seeded, so it is a parameter `h`. -/
def safe_callback_data (h : String → Nat) (file_name : String) : String :=
  if file_name.length ≤ 32 then file_name
  else strTake file_name 28 ++ "_" ++ Nat.repr (h file_name % 10000)

/-- The loop of `SimplePDFBot._get_filename_from_id` over `files.keys()`. -/
def findFromId (h : String → Nat) (file_id : String) :
    List (String × Nat) → Option String
  | [] => none
  | (filename, _) :: rest =>
    if file_id == safe_callback_data h filename then some filename
    else if file_id.length ≤ (safe_callback_data h filename).length &&
        pyStartswith (safe_callback_data h filename) file_id then some filename
    else findFromId h file_id rest

/-- `SimplePDFBot._get_filename_from_id`: a callback id that is itself a key
is returned directly, otherwise the loop matches it against each key's safe
callback data, exactly or as a prefix. -/
def get_filename_from_id (h : String → Nat) (files : List (String × Nat))
    (file_id : String) : Option String :=
  if (keys files).contains file_id then some file_id
  else findFromId h file_id files

/-- Backend calls recorded by the session layer: an AI-backend `compare`
invocation with the file references and the prompt passed to it. -/
inductive BackendCall where
  | compare (refs : List Nat) (prompt : String)
deriving DecidableEq

def compare_prompt_vi_general : List Char :=
  ['S', 'o', ' ', 's', Char.ofNat 195, Char.ofNat 161, 'n', 'h', ' ', 'c', Char.ofNat 195, Char.ofNat 161, 'c', ' ', 't', Char.ofNat 195, Char.ofNat 160, 'i', ' ', 'l', 'i', Char.ofNat 225, Char.ofNat 187, Char.ofNat 8225, 'u', ' ', 'n', Char.ofNat 195, Char.ofNat 160, 'y', ' ', 'v', Char.ofNat 195, Char.ofNat 160, ' ', 'c', 'u', 'n', 'g', ' ', 'c', Char.ofNat 225, Char.ofNat 186, Char.ofNat 165, 'p', ' ', 't', Char.ofNat 225, Char.ofNat 187, Char.ofNat 8226, 'n', 'g', ' ', 'q', 'u', 'a', 'n', ' ', 'v', Char.ofNat 225, Char.ofNat 187, ' ', Char.ofNat 196, Char.ofNat 8216, 'i', Char.ofNat 225, Char.ofNat 187, Char.ofNat 402, 'm', ' ', 'g', 'i', Char.ofNat 225, Char.ofNat 187, Char.ofNat 8216, 'n', 'g', ' ', 'v', Char.ofNat 195, Char.ofNat 160, ' ', 'k', 'h', Char.ofNat 195, Char.ofNat 161, 'c', ' ', 'n', 'h', 'a', 'u', '.']

def compare_prompt_vi_differences : List Char :=
  ['N', 'h', Char.ofNat 225, Char.ofNat 187, Char.ofNat 175, 'n', 'g', ' ', Char.ofNat 196, Char.ofNat 8216, 'i', Char.ofNat 225, Char.ofNat 187, Char.ofNat 402, 'm', ' ', 'k', 'h', Char.ofNat 195, Char.ofNat 161, 'c', ' ', 'b', 'i', Char.ofNat 225, Char.ofNat 187, Char.ofNat 8225, 't', ' ', 'c', 'h', Char.ofNat 195, Char.ofNat 173, 'n', 'h', ' ', 'g', 'i', Char.ofNat 225, Char.ofNat 187, Char.ofNat 175, 'a', ' ', 'c', Char.ofNat 195, Char.ofNat 161, 'c', ' ', 't', Char.ofNat 195, Char.ofNat 160, 'i', ' ', 'l', 'i', Char.ofNat 225, Char.ofNat 187, Char.ofNat 8225, 'u', ' ', 'n', Char.ofNat 195, Char.ofNat 160, 'y', ' ', 'l', Char.ofNat 195, Char.ofNat 160, ' ', 'g', Char.ofNat 195, Char.ofNat 172, '?', ' ', 'T', Char.ofNat 225, Char.ofNat 186, Char.ofNat 173, 'p', ' ', 't', 'r', 'u', 'n', 'g', ' ', 'v', Char.ofNat 195, Char.ofNat 160, 'o', ' ', 'q', 'u', 'a', 'n', ' ', Char.ofNat 196, Char.ofNat 8216, 'i', Char.ofNat 225, Char.ofNat 187, Char.ofNat 402, 'm', ',', ' ', 'p', 'h', Char.ofNat 198, Char.ofNat 176, Char.ofNat 198, Char.ofNat 161, 'n', 'g', ' ', 'p', 'h', Char.ofNat 195, Char.ofNat 161, 'p', ',', ' ', 'h', 'o', Char.ofNat 225, Char.ofNat 186, Char.ofNat 183, 'c', ' ', 'k', Char.ofNat 225, Char.ofNat 186, Char.ofNat 191, 't', ' ', 'l', 'u', Char.ofNat 225, Char.ofNat 186, Char.ofNat 173, 'n', ' ', 't', 'r', Char.ofNat 195, Char.ofNat 161, 'i', ' ', 'n', 'g', Char.ofNat 198, Char.ofNat 176, Char.ofNat 225, Char.ofNat 187, Char.ofNat 163, 'c', '.']

def compare_prompt_vi_common : List Char :=
  ['X', Char.ofNat 195, Char.ofNat 161, 'c', ' ', Char.ofNat 196, Char.ofNat 8216, Char.ofNat 225, Char.ofNat 187, Char.ofNat 8249, 'n', 'h', ' ', 'v', Char.ofNat 195, Char.ofNat 160, ' ', 'g', 'i', Char.ofNat 225, Char.ofNat 186, Char.ofNat 163, 'i', ' ', 't', 'h', Char.ofNat 195, Char.ofNat 173, 'c', 'h', ' ', 'c', Char.ofNat 195, Char.ofNat 161, 'c', ' ', 'c', 'h', Char.ofNat 225, Char.ofNat 187, Char.ofNat 167, ' ', Char.ofNat 196, Char.ofNat 8216, Char.ofNat 225, Char.ofNat 187, ',', ' ', 'l', Char.ofNat 225, Char.ofNat 186, Char.ofNat 173, 'p', ' ', 'l', 'u', Char.ofNat 225, Char.ofNat 186, Char.ofNat 173, 'n', ',', ' ', 'h', 'o', Char.ofNat 225, Char.ofNat 186, Char.ofNat 183, 'c', ' ', 'p', 'h', Char.ofNat 195, Char.ofNat 161, 't', ' ', 'h', 'i', Char.ofNat 225, Char.ofNat 187, Char.ofNat 8225, 'n', ' ', 'c', 'h', 'u', 'n', 'g', ' ', 't', 'r', 'o', 'n', 'g', ' ', 'c', Char.ofNat 195, Char.ofNat 161, 'c', ' ', 't', Char.ofNat 195, Char.ofNat 160, 'i', ' ', 'l', 'i', Char.ofNat 225, Char.ofNat 187, Char.ofNat 8225, 'u', ' ', 'n', Char.ofNat 195, Char.ofNat 160, 'y', '.']

def compare_prompt_vi_data : List Char :=
  ['S', 'o', ' ', 's', Char.ofNat 195, Char.ofNat 161, 'n', 'h', ' ', 'b', Char.ofNat 225, Char.ofNat 186, Char.ofNat 165, 't', ' ', 'k', Char.ofNat 225, Char.ofNat 187, Char.ofNat 179, ' ', 'd', Char.ofNat 225, Char.ofNat 187, Char.ofNat 175, ' ', 'l', 'i', Char.ofNat 225, Char.ofNat 187, Char.ofNat 8225, 'u', ',', ' ', 't', 'h', Char.ofNat 225, Char.ofNat 187, Char.ofNat 8216, 'n', 'g', ' ', 'k', Char.ofNat 195, Char.ofNat 170, ',', ' ', 'h', 'o', Char.ofNat 225, Char.ofNat 186, Char.ofNat 183, 'c', ' ', 't', 'h', Char.ofNat 195, Char.ofNat 180, 'n', 'g', ' ', 't', 'i', 'n', ' ', 's', Char.ofNat 225, Char.ofNat 187, Char.ofNat 8216, ' ', 'n', Char.ofNat 195, Char.ofNat 160, 'o', ' ', Char.ofNat 196, Char.ofNat 8216, Char.ofNat 198, Char.ofNat 176, Char.ofNat 225, Char.ofNat 187, Char.ofNat 163, 'c', ' ', 't', 'r', Char.ofNat 195, Char.ofNat 172, 'n', 'h', ' ', 'b', Char.ofNat 195, Char.ofNat 160, 'y', ' ', 't', 'r', 'o', 'n', 'g', ' ', 'c', Char.ofNat 195, Char.ofNat 161, 'c', ' ', 't', Char.ofNat 195, Char.ofNat 160, 'i', ' ', 'l', 'i', Char.ofNat 225, Char.ofNat 187, Char.ofNat 8225, 'u', ' ', 'n', Char.ofNat 195, Char.ofNat 160, 'y', '.', ' ', 'T', Char.ofNat 225, Char.ofNat 186, Char.ofNat 161, 'o', ' ', 'b', Char.ofNat 225, Char.ofNat 186, Char.ofNat 163, 'n', 'g', ' ', 'n', Char.ofNat 225, Char.ofNat 186, Char.ofNat 191, 'u', ' ', 't', 'h', Char.ofNat 195, Char.ofNat 173, 'c', 'h', ' ', 'h', Char.ofNat 225, Char.ofNat 187, Char.ofNat 163, 'p', '.']

def compare_prompt_en_general : List Char :=
  ['C', 'o', 'm', 'p', 'a', 'r', 'e', ' ', 't', 'h', 'e', 's', 'e', ' ', 'd', 'o', 'c', 'u', 'm', 'e', 'n', 't', 's', ' ', 'a', 'n', 'd', ' ', 'p', 'r', 'o', 'v', 'i', 'd', 'e', ' ', 'a', ' ', 'g', 'e', 'n', 'e', 'r', 'a', 'l', ' ', 'o', 'v', 'e', 'r', 'v', 'i', 'e', 'w', ' ', 'o', 'f', ' ', 't', 'h', 'e', 'i', 'r', ' ', 's', 'i', 'm', 'i', 'l', 'a', 'r', 'i', 't', 'i', 'e', 's', ' ', 'a', 'n', 'd', ' ', 'd', 'i', 'f', 'f', 'e', 'r', 'e', 'n', 'c', 'e', 's', '.']

def compare_prompt_en_differences : List Char :=
  ['W', 'h', 'a', 't', ' ', 'a', 'r', 'e', ' ', 't', 'h', 'e', ' ', 'k', 'e', 'y', ' ', 'd', 'i', 'f', 'f', 'e', 'r', 'e', 'n', 'c', 'e', 's', ' ', 'b', 'e', 't', 'w', 'e', 'e', 'n', ' ', 't', 'h', 'e', 's', 'e', ' ', 'd', 'o', 'c', 'u', 'm', 'e', 'n', 't', 's', '?', ' ', 'F', 'o', 'c', 'u', 's', ' ', 'o', 'n', ' ', 'c', 'o', 'n', 't', 'r', 'a', 's', 't', 'i', 'n', 'g', ' ', 'v', 'i', 'e', 'w', 'p', 'o', 'i', 'n', 't', 's', ',', ' ', 'm', 'e', 't', 'h', 'o', 'd', 'o', 'l', 'o', 'g', 'i', 'e', 's', ',', ' ', 'o', 'r', ' ', 'c', 'o', 'n', 'c', 'l', 'u', 's', 'i', 'o', 'n', 's', '.']

def compare_prompt_en_common : List Char :=
  ['I', 'd', 'e', 'n', 't', 'i', 'f', 'y', ' ', 'a', 'n', 'd', ' ', 'e', 'x', 'p', 'l', 'a', 'i', 'n', ' ', 't', 'h', 'e', ' ', 'c', 'o', 'm', 'm', 'o', 'n', ' ', 't', 'h', 'e', 'm', 'e', 's', ',', ' ', 'a', 'r', 'g', 'u', 'm', 'e', 'n', 't', 's', ',', ' ', 'o', 'r', ' ', 'f', 'i', 'n', 'd', 'i', 'n', 'g', 's', ' ', 's', 'h', 'a', 'r', 'e', 'd', ' ', 'a', 'c', 'r', 'o', 's', 's', ' ', 't', 'h', 'e', 's', 'e', ' ', 'd', 'o', 'c', 'u', 'm', 'e', 'n', 't', 's', '.']

def compare_prompt_en_data : List Char :=
  ['C', 'o', 'm', 'p', 'a', 'r', 'e', ' ', 'a', 'n', 'y', ' ', 'd', 'a', 't', 'a', ',', ' ', 's', 't', 'a', 't', 'i', 's', 't', 'i', 'c', 's', ',', ' ', 'o', 'r', ' ', 'n', 'u', 'm', 'e', 'r', 'i', 'c', 'a', 'l', ' ', 'i', 'n', 'f', 'o', 'r', 'm', 'a', 't', 'i', 'o', 'n', ' ', 'p', 'r', 'e', 's', 'e', 'n', 't', 'e', 'd', ' ', 'i', 'n', ' ', 't', 'h', 'e', 's', 'e', ' ', 'd', 'o', 'c', 'u', 'm', 'e', 'n', 't', 's', '.', ' ', 'C', 'r', 'e', 'a', 't', 'e', ' ', 'a', ' ', 't', 'a', 'b', 'l', 'e', ' ', 'i', 'f', ' ', 'a', 'p', 'p', 'r', 'o', 'p', 'r', 'i', 'a', 't', 'e', '.']

/-- The comparison prompt table: `prompts.get(comparison_type,
prompts["general"])`, chosen by the session language (the Vietnamese strings
are the source file's own mojibake bytes). -/
def compare_prompt (language : String) (ctype : String) : List Char :=
  if language == "vi" then
    if ctype == "general" then compare_prompt_vi_general
    else if ctype == "differences" then compare_prompt_vi_differences
    else if ctype == "common" then compare_prompt_vi_common
    else if ctype == "data" then compare_prompt_vi_data
    else compare_prompt_vi_general
  else
    if ctype == "general" then compare_prompt_en_general
    else if ctype == "differences" then compare_prompt_en_differences
    else if ctype == "common" then compare_prompt_en_common
    else if ctype == "data" then compare_prompt_en_data
    else compare_prompt_en_general

/-- The `menu_select_` branch of `handle_menu_callback`: resolve the payload;
if it names a (truthy) existing file, make it current. -/
def menu_select_branch (h : String → Nat) (s : Session) (file_id : String) : Session :=
  match get_filename_from_id h s.files file_id with
  | some file_name =>
    if file_name ≠ "" ∧ (keys s.files).contains file_name then
      { s with current_file := some file_name }
    else s
  | none => s

/-- The `menu_delete_` branch of `handle_menu_callback`: resolve the payload;
if it names a (truthy) existing file, release the backend handle
(best-effort, no state effect), delete the entry, and clear `current_file`
if it pointed at the deleted name. -/
def menu_delete_branch (h : String → Nat) (s : Session) (file_id : String) : Session :=
  match get_filename_from_id h s.files file_id with
  | some file_name =>
    if file_name ≠ "" ∧ (keys s.files).contains file_name then
      { s with files := eraseKey s.files file_name,
               current_file :=
                 if s.current_file = some file_name then none else s.current_file }
    else s
  | none => s

/-- The `compare_select_` branch of `handle_menu_callback`: resolve the
payload; if it names a (truthy) existing file, toggle it in
`compare_selection` (`list.remove` drops the first occurrence, otherwise the
name is appended). -/
def compare_select_branch (h : String → Nat) (s : Session) (file_id : String) : Session :=
  match get_filename_from_id h s.files file_id with
  | some file_name =>
    if file_name ≠ "" ∧ (keys s.files).contains file_name then
      { s with compare_selection :=
          if s.compare_selection.contains file_name then
            s.compare_selection.erase file_name
          else s.compare_selection ++ [file_name] }
    else s
  | none => s

/-- The comparison-type branch of `handle_menu_callback` (reached by any
remaining `compare_`-prefixed payload): with fewer than two selected files
nothing is called; otherwise the backend `compare` runs once with the
selected files' references and the prompt for the comparison type. -/
def compare_type_branch (s : Session) (ctype : String) : Session × List BackendCall :=
  if s.compare_selection.length < 2 then (s, [])
  else
    (s, [.compare (s.compare_selection.map (lookupFile s.files))
          (String.mk (compare_prompt s.language ctype))])

/-- `SimplePDFBot.handle_menu_callback`, restricted to its session-state
effects and backend `compare` calls.  The dispatch order and the payload
slices are the source's: `data[12:]` after `menu_select_`/`menu_delete_` and
`data[14:]` after `compare_select_` (the latter is one short of the prefix
length, so the slice keeps the prefix's final underscore). -/
def handle_menu_callback (h : String → Nat) (s : Session) (data : String) :
    Session × List BackendCall :=
  if data == "menu_upload" then (s, [])
  else if data == "menu_language" then (s, [])
  else if data == "menu_files" then (s, [])
  else if data == "menu_analyze" then (s, [])
  else if data == "menu_ask" then (s, [])
  else if data == "menu_compare" then
    (if s.files.length < 2 then s else { s with compare_selection := [] }, [])
  else if data == "menu_back" || data == "analyze_back" then (s, [])
  else if pyStartswith data "menu_select_" then (menu_select_branch h s (strDrop data 12), [])
  else if pyStartswith data "menu_delete_" then (menu_delete_branch h s (strDrop data 12), [])
  else if pyStartswith data "compare_select_" then
    (compare_select_branch h s (strDrop data 14), [])
  else if data == "compare_execute" then (s, [])
  else if pyStartswith data "compare_" then compare_type_branch s (strDrop data 8)
  else (s, [])

/-- `SimplePDFBot.handle_language_selection`, restricted to its state effect. -/
def handle_language_selection (s : Session) (data : String) : Session :=
  if data == "lang_en" then { s with language := "en" }
  else if data == "lang_vi" then { s with language := "vi" }
  else s

/-- `SimplePDFBot.handle_callback_query`: prefix routing of callback
payloads.  `analyze_` callbacks run analyses but touch none of the modelled
session fields and make no `compare` call. -/
def handle_callback_query (h : String → Nat) (s : Session) (data : String) :
    Session × List BackendCall :=
  if pyStartswith data "analyze_" then (s, [])
  else if pyStartswith data "menu_" then handle_menu_callback h s data
  else if pyStartswith data "compare_" then handle_menu_callback h s data
  else if pyStartswith data "lang_" then (handle_language_selection s data, [])
  else (s, [])

/-- The successful-upload effect of `SimplePDFBot.handle_pdf`: store the
reference under the file name and make the file current. -/
def handle_pdf_success (s : Session) (name : String) (ref : Nat) : Session :=
  { s with files := upsert s.files name ref, current_file := some name }

/-- The session-mutating events of the conversation handlers. -/
inductive Event where
  | uploadSuccess (name : String) (ref : Nat)
  | uploadFailure
  | callback (data : String)
  | textMessage
  | startCmd

/-- One handler invocation's effect on the session state: uploads store and
activate on success and change nothing on failure; callbacks route through
`handle_callback_query`; free text and the restart command leave the
modelled session fields unchanged. -/
def stepSession (h : String → Nat) (s : Session) : Event → Session
  | .uploadSuccess name ref => handle_pdf_success s name ref
  | .uploadFailure => s
  | .callback data => (handle_callback_query h s data).1
  | .textMessage => s
  | .startCmd => s

/-- The session-model invariant: `current_file`, when set, is a key of
`files`. -/
def activeDocOk (s : Session) : Bool :=
  match s.current_file with
  | none => true
  | some n => (keys s.files).contains n

/-- Python `msgs[:-k]` for `k : Nat` (`[:-0]` is `[:0]`, the empty list). -/
def pyNegInit (msgs : List Nat) (k : Nat) : List Nat :=
  if k == 0 then [] else msgs.take (msgs.length - k)

/-- Python `msgs[-k:]` for `k : Nat` (`[-0:]` is `[0:]`, the whole list). -/
def pyNegTail (msgs : List Nat) (k : Nat) : List Nat :=
  if k == 0 then msgs else msgs.drop (msgs.length - k)

/-- `SimplePDFBot.cleanup_messages`, restricted to the tracked id list:
returns the ids the transport is asked to delete and the new tracked list.
Each deletion's `BadRequest` (e.g. already gone) is swallowed, so the new
list does not depend on the deletion outcomes. -/
def cleanup_messages (msgs : List Nat) (maxKeep : Nat) : List Nat × List Nat :=
  (if msgs.length > maxKeep then pyNegInit msgs maxKeep else [],
   if msgs.length > maxKeep then pyNegTail msgs maxKeep else msgs)

/-- Characters that every sanitizer stage leaves untouched: ASCII below 128
and none of the markup-significant characters (`&`, `<`, `>`, the double
quote, the apostrophe) nor the newline.  Every substitution pattern of
`sanitize_html` begins with `&`, `<`, a newline, or a non-ASCII (mojibake)
character. -/
def plainChar (c : Char) : Bool :=
  c.toNat < 128 && !(c == '&') && !(c == '<') && !(c == '>') &&
  !(c == quoteChar) && !(c == aposChar) && !(c == nlChar)

/-- Membership in `keys` gives a `true` `contains` test. -/
theorem contains_of_mem_keys {files : List (String × Nat)} {name : String}
    (hm : name ∈ keys files) : (keys files).contains name = true := by
  simpa using hm

/-- A `true` `contains` test gives membership in `keys`. -/
theorem mem_keys_of_contains {files : List (String × Nat)} {name : String}
    (hm : (keys files).contains name = true) : name ∈ keys files := by
  simpa using hm

/-- C10 loop lemma: a name produced by the reverse-lookup loop is one of the
iterated keys. -/
theorem findFromId_mem {h : String → Nat} {file_id : String} :
    ∀ {files : List (String × Nat)} {name : String},
      findFromId h file_id files = some name → name ∈ keys files := by
  intro files
  induction files with
  | nil => intro name hn; simp [findFromId] at hn
  | cons p rest ih =>
    intro name hn
    simp only [findFromId] at hn
    split at hn
    · cases hn; simp [keys]
    · split at hn
      · cases hn; simp [keys]
      · have := ih hn
        simp [keys] at this ⊢
        exact Or.inr this

/-- C10: the truncated-identifier reverse lookup `_get_filename_from_id`
returns `none` or a name that is currently a key of the `files` dict, for
every hash function, dict and payload; the select, delete and compare-toggle
branches guard on exactly this result (and re-check membership), so they
never index `files` with a missing key. -/
theorem get_filename_from_id_mem (h : String → Nat) (files : List (String × Nat))
    (file_id name : String)
    (hr : get_filename_from_id h files file_id = some name) :
    name ∈ keys files := by
  unfold get_filename_from_id at hr
  split at hr
  · cases hr
    exact mem_keys_of_contains (by assumption)
  · exact findFromId_mem hr

/-- Witness for C10 at a concrete session: looking up the key itself
resolves to a key of the dict. -/
theorem get_filename_from_id_mem_witness :
    "a.pdf" ∈ keys [("a.pdf", 11), ("b.pdf", 22)] :=
  get_filename_from_id_mem (fun _ => 0) [("a.pdf", 11), ("b.pdf", 22)]
    "a.pdf" "a.pdf" (by decide)

set_option maxRecDepth 4000 in
/-- C1 counterexample: the Markup Sanitizer is not idempotent.  On the
one-character input `&` one application yields `&amp;`, whose re-sanitization
escapes the ampersand again. -/
theorem sanitize_html_not_idempotent :
    sanitize_html (sanitize_html ['&']) ≠ sanitize_html ['&'] := by decide

set_option maxRecDepth 4000 in
/-- C5 evaluation at the failing input: the allow-listed bold tag is
un-escaped by the allow-list pass but then removed by the final residual
strip `re.sub(r'<[^>]+>', '', text)`, so `<b>x</b>` sanitizes to `x` with
the tag gone rather than kept interpretable. -/
theorem sanitize_html_strips_allowlisted_bold :
    sanitize_html ("<b>x</b>".toList) = "x".toList := by decide

/-- C8 counterexample: with `keepCount = 0` and one tracked message the
Python slices `[:-0]`/`[-0:]` delete nothing and keep everything, so the
tracked list still has length `1 > 0` after the cleanup pass. -/
theorem cleanup_messages_keep_zero :
    ¬ ((cleanup_messages [7] 0).2.length ≤ 0) := by decide

/-- C8 as amended: for every tracked list and every `keepCount ≥ 1`, after a
cleanup pass the tracked list is exactly the most recent entries (the suffix
of the old list) and has length at most `keepCount`, independently of the
deletion outcomes, which the state update never consults. -/
theorem cleanup_messages_bound (msgs : List Nat) (k : Nat) (hk : 1 ≤ k) :
    (cleanup_messages msgs k).2 = msgs.drop (msgs.length - k) ∧
    (cleanup_messages msgs k).2.length ≤ k := by
  have hk0 : (k == 0) = false := by
    rw [beq_eq_false_iff_ne]
    omega
  by_cases hgt : msgs.length > k
  · have h2 : (cleanup_messages msgs k).2 = msgs.drop (msgs.length - k) := by
      simp [cleanup_messages, pyNegTail, hgt, hk0]
    refine ⟨h2, ?_⟩
    rw [h2, List.length_drop]
    omega
  · have hle : msgs.length - k = 0 := by omega
    have h2 : (cleanup_messages msgs k).2 = msgs := by
      simp [cleanup_messages, hgt]
    rw [hle, List.drop_zero]
    refine ⟨h2, ?_⟩
    rw [h2]
    omega

/-- Witness for C8 as amended at a concrete list and keep-count. -/
theorem cleanup_messages_bound_witness :
    (cleanup_messages [1, 2, 3, 4, 5] 3).2 = [1, 2, 3, 4, 5].drop 2 ∧
    (cleanup_messages [1, 2, 3, 4, 5] 3).2.length ≤ 3 :=
  cleanup_messages_bound [1, 2, 3, 4, 5] 3 (by decide)

/-- C9: a delete-document event (payload as generated by the menu, the safe
callback data of a name of at most 32 characters) removes exactly the deleted
name from the dict; it clears `current_file` when it pointed at the deleted
name and leaves it unchanged otherwise. -/
theorem menu_delete_branch_spec (h : String → Nat) (s : Session) (name : String)
    (hmem : name ∈ keys s.files) (hne : name ≠ "") (hlen : name.length ≤ 32) :
    (menu_delete_branch h s (safe_callback_data h name)).files = eraseKey s.files name ∧
    (menu_delete_branch h s (safe_callback_data h name)).current_file =
      (if s.current_file = some name then none else s.current_file) := by
  have hsafe : safe_callback_data h name = name := by
    simp [safe_callback_data, hlen]
  have hres : get_filename_from_id h s.files name = some name := by
    simp [get_filename_from_id, hmem]
  rw [hsafe]
  simp [menu_delete_branch, hres, hne, hmem]

/-- Witness for C9 at a concrete session: deleting the non-active
document leaves the active one set; the dict keeps only the other entry. -/
theorem menu_delete_branch_spec_witness :
    (menu_delete_branch (fun _ => 0)
        ⟨[("a.pdf", 11), ("b.pdf", 22)], some "a.pdf", "en", []⟩
        (safe_callback_data (fun _ => 0) "b.pdf")).files =
      eraseKey [("a.pdf", 11), ("b.pdf", 22)] "b.pdf" ∧
    (menu_delete_branch (fun _ => 0)
        ⟨[("a.pdf", 11), ("b.pdf", 22)], some "a.pdf", "en", []⟩
        (safe_callback_data (fun _ => 0) "b.pdf")).current_file =
      (if (some "a.pdf" : Option String) = some "b.pdf" then none else some "a.pdf") :=
  menu_delete_branch_spec (fun _ => 0)
    ⟨[("a.pdf", 11), ("b.pdf", 22)], some "a.pdf", "en", []⟩ "b.pdf"
    (by decide) (by decide) (by decide)

/-- C2 evaluation at the failing inputs: a user with documents `a.pdf`
(active) and `b.pdf` enters the comparison flow, presses both selection
buttons (whose payloads the menu itself generates), presses the execute
button and then the general comparison type.  Because the `compare_select_`
branch slices `data[14:]` — one character short of the 15-character prefix —
both lookups fail, the selection stays empty, and the backend `compare` is
never called (the claim expects exactly one call with both handles). -/
theorem compare_flow_never_calls_backend (h : String → Nat) (ha hb : Nat) :
    (let s0 : Session := ⟨[("a.pdf", ha), ("b.pdf", hb)], some "a.pdf", "en", []⟩
     let r1 := handle_callback_query h s0 "menu_compare"
     let r2 := handle_callback_query h r1.1
       ("compare_select_" ++ safe_callback_data h "a.pdf")
     let r3 := handle_callback_query h r2.1
       ("compare_select_" ++ safe_callback_data h "b.pdf")
     let r4 := handle_callback_query h r3.1 "compare_execute"
     let r5 := handle_callback_query h r4.1 "compare_general"
     r1.2 ++ r2.2 ++ r3.2 ++ r4.2 ++ r5.2 = [] ∧ r5.1.compare_selection = []) :=
  ⟨rfl, rfl⟩

/-- Erasing one key keeps every other key. -/
theorem mem_keys_eraseKey {files : List (String × Nat)} {n m : String}
    (hm : m ∈ keys files) (hne : m ≠ n) : m ∈ keys (eraseKey files n) := by
  simp only [keys, eraseKey, List.mem_map] at hm ⊢
  obtain ⟨p, hp, hfst⟩ := hm
  refine ⟨p, ?_, hfst⟩
  rw [List.mem_filter]
  refine ⟨hp, ?_⟩
  simp [hfst, hne]

/-- The upserted key is a key of the updated dict. -/
theorem mem_keys_upsert_self (files : List (String × Nat)) (name : String) (ref : Nat) :
    name ∈ keys (upsert files name ref) := by
  unfold upsert
  split
  · rename_i hc
    have hmem : name ∈ keys files := mem_keys_of_contains hc
    simp only [keys, List.mem_map] at hmem ⊢
    obtain ⟨p, hp, hfst⟩ := hmem
    exact ⟨(name, ref), ⟨p, hp, by simp [hfst]⟩, rfl⟩
  · simp [keys]

/-- The invariant in quantified form. -/
theorem activeDocOk_iff (s : Session) :
    activeDocOk s = true ↔ ∀ n, s.current_file = some n → n ∈ keys s.files := by
  unfold activeDocOk
  cases hc : s.current_file with
  | none => simp [hc]
  | some m => simp [hc]

/-- The select branch either does nothing or activates a key of the dict. -/
theorem menu_select_branch_cases (h : String → Nat) (s : Session) (fid : String) :
    menu_select_branch h s fid = s ∨
    ∃ name, name ∈ keys s.files ∧
      menu_select_branch h s fid = { s with current_file := some name } := by
  unfold menu_select_branch
  split
  · rename_i name hres
    split
    · rename_i hg
      right
      exact ⟨name, by simpa using hg.2, rfl⟩
    · left; rfl
  · left; rfl

/-- The delete branch either does nothing or erases one key of the dict,
clearing `current_file` exactly when it pointed at that key. -/
theorem menu_delete_branch_cases (h : String → Nat) (s : Session) (fid : String) :
    menu_delete_branch h s fid = s ∨
    ∃ name, name ∈ keys s.files ∧
      menu_delete_branch h s fid =
        { s with files := eraseKey s.files name,
                 current_file :=
                   if s.current_file = some name then none else s.current_file } := by
  unfold menu_delete_branch
  split
  · rename_i name hres
    split
    · rename_i hg
      right
      exact ⟨name, by simpa using hg.2, rfl⟩
    · left; rfl
  · left; rfl

/-- A successful upload preserves the active-document invariant: the newly
activated name is a key of the updated dict. -/
theorem activeDocOk_upload (s : Session) (name : String) (ref : Nat) :
    activeDocOk (handle_pdf_success s name ref) = true := by
  rw [activeDocOk_iff]
  intro n hn
  have hn2 : n = name := by
    have : (handle_pdf_success s name ref).current_file = some name := rfl
    rw [this, Option.some.injEq] at hn
    exact hn.symm
  subst hn2
  exact mem_keys_upsert_self s.files n ref

/-- The select branch preserves the active-document invariant. -/
theorem activeDocOk_menu_select (h : String → Nat) (s : Session) (fid : String)
    (hs : activeDocOk s = true) :
    activeDocOk (menu_select_branch h s fid) = true := by
  rcases menu_select_branch_cases h s fid with heq | ⟨name, hmem, heq⟩
  · rw [heq]; exact hs
  · rw [heq, activeDocOk_iff]
    intro n hn
    simp only [Option.some.injEq] at hn
    cases hn
    simpa using hmem

/-- The delete branch preserves the active-document invariant. -/
theorem activeDocOk_menu_delete (h : String → Nat) (s : Session) (fid : String)
    (hs : activeDocOk s = true) :
    activeDocOk (menu_delete_branch h s fid) = true := by
  rcases menu_delete_branch_cases h s fid with heq | ⟨name, hmem, heq⟩
  · rw [heq]; exact hs
  · rw [heq, activeDocOk_iff]
    rw [activeDocOk_iff] at hs
    intro n hn
    simp only at hn
    split at hn
    · cases hn
    · rename_i hneq
      have hm := hs n hn
      have hnn : n ≠ name := fun he => hneq (he ▸ hn)
      simpa using mem_keys_eraseKey hm hnn

/-- The compare-toggle branch preserves the active-document invariant:
it only touches `compare_selection`. -/
theorem activeDocOk_compare_select (h : String → Nat) (s : Session) (fid : String)
    (hs : activeDocOk s = true) :
    activeDocOk (compare_select_branch h s fid) = true := by
  have h1 : (compare_select_branch h s fid).current_file = s.current_file := by
    unfold compare_select_branch
    split
    · split <;> rfl
    · rfl
  have h2 : (compare_select_branch h s fid).files = s.files := by
    unfold compare_select_branch
    split
    · split <;> rfl
    · rfl
  rw [activeDocOk_iff, h1, h2]
  rw [activeDocOk_iff] at hs
  exact hs

/-- The comparison-type branch leaves the session unchanged. -/
theorem compare_type_branch_fst (s : Session) (ctype : String) :
    (compare_type_branch s ctype).1 = s := by
  unfold compare_type_branch
  split <;> rfl

/-- Language selection preserves the active-document invariant: it only
touches `language`. -/
theorem activeDocOk_lang (s : Session) (data : String)
    (hs : activeDocOk s = true) :
    activeDocOk (handle_language_selection s data) = true := by
  unfold handle_language_selection
  split
  · exact hs
  · split <;> exact hs

/-- Every `handle_menu_callback` branch preserves the active-document
invariant. -/
theorem activeDocOk_handle_menu (h : String → Nat) (s : Session) (data : String)
    (hs : activeDocOk s = true) :
    activeDocOk (handle_menu_callback h s data).1 = true := by
  unfold handle_menu_callback
  by_cases hc0 : (data == "menu_upload") = true
  · rw [if_pos hc0]; exact hs
  rw [if_neg hc0]
  by_cases hc1 : (data == "menu_language") = true
  · rw [if_pos hc1]; exact hs
  rw [if_neg hc1]
  by_cases hc2 : (data == "menu_files") = true
  · rw [if_pos hc2]; exact hs
  rw [if_neg hc2]
  by_cases hc3 : (data == "menu_analyze") = true
  · rw [if_pos hc3]; exact hs
  rw [if_neg hc3]
  by_cases hc4 : (data == "menu_ask") = true
  · rw [if_pos hc4]; exact hs
  rw [if_neg hc4]
  by_cases hc5 : (data == "menu_compare") = true
  · rw [if_pos hc5]
    by_cases hf : s.files.length < 2
    · rw [if_pos hf]; exact hs
    · rw [if_neg hf]; exact hs
  rw [if_neg hc5]
  by_cases hc6 : (data == "menu_back" || data == "analyze_back") = true
  · rw [if_pos hc6]; exact hs
  rw [if_neg hc6]
  by_cases hc7 : pyStartswith data "menu_select_" = true
  · rw [if_pos hc7]; exact activeDocOk_menu_select h s _ hs
  rw [if_neg hc7]
  by_cases hc8 : pyStartswith data "menu_delete_" = true
  · rw [if_pos hc8]; exact activeDocOk_menu_delete h s _ hs
  rw [if_neg hc8]
  by_cases hc9 : pyStartswith data "compare_select_" = true
  · rw [if_pos hc9]; exact activeDocOk_compare_select h s _ hs
  rw [if_neg hc9]
  by_cases hc10 : (data == "compare_execute") = true
  · rw [if_pos hc10]; exact hs
  rw [if_neg hc10]
  by_cases hc11 : pyStartswith data "compare_" = true
  · rw [if_pos hc11]
    rw [compare_type_branch_fst]
    exact hs
  rw [if_neg hc11]
  exact hs

/-- Every callback dispatch preserves the active-document invariant. -/
theorem activeDocOk_callback (h : String → Nat) (s : Session) (data : String)
    (hs : activeDocOk s = true) :
    activeDocOk (handle_callback_query h s data).1 = true := by
  unfold handle_callback_query
  by_cases h0 : pyStartswith data "analyze_" = true
  · rw [if_pos h0]; exact hs
  rw [if_neg h0]
  by_cases h1 : pyStartswith data "menu_" = true
  · rw [if_pos h1]; exact activeDocOk_handle_menu h s data hs
  rw [if_neg h1]
  by_cases h2 : pyStartswith data "compare_" = true
  · rw [if_pos h2]; exact activeDocOk_handle_menu h s data hs
  rw [if_neg h2]
  by_cases h3 : pyStartswith data "lang_" = true
  · rw [if_pos h3]; exact activeDocOk_lang s data hs
  rw [if_neg h3]
  exact hs

/-- C7: the session invariant — `current_file`, when set, is a key of the
`files` dict — is preserved by every handler event: uploads (successful or
failed), every menu/compare/language callback, free text, and restart. -/
theorem stepSession_preserves_invariant (h : String → Nat) (s : Session) (e : Event)
    (hs : activeDocOk s = true) : activeDocOk (stepSession h s e) = true := by
  cases e with
  | uploadSuccess name ref => exact activeDocOk_upload s name ref
  | uploadFailure => exact hs
  | callback data => exact activeDocOk_callback h s data hs
  | textMessage => exact hs
  | startCmd => exact hs

/-- Witness for C7 at a concrete session and event: deleting the active
document via its menu payload keeps the invariant (the active document
becomes unset). -/
theorem stepSession_preserves_invariant_witness :
    activeDocOk (stepSession (fun _ => 0)
      ⟨[("a.pdf", 11), ("b.pdf", 22)], some "a.pdf", "en", []⟩
      (.callback "menu_delete_a.pdf")) = true :=
  stepSession_preserves_invariant (fun _ => 0)
    ⟨[("a.pdf", 11), ("b.pdf", 22)], some "a.pdf", "en", []⟩
    (.callback "menu_delete_a.pdf") (by decide)

/-- C6: the Safe Delivery Gateway's fallback behavior.  (a) When the first
attempt raises a markup-rejection (`BadRequest` whose message contains the
parse-failure substring) and the retry with the sanitized text and rich
markup succeeds, the gateway returns the retry's message id with no error
surfaced, having called the transport exactly with the original text and
then the sanitized text, both with rich markup.  (b) When the retry raises a
second markup-rejection, a third call sends the sanitized text with markup
interpretation disabled.  (c) A first-attempt `BadRequest` without the
markup-rejection substring is re-raised unmodified after the single call,
and (d) so is any non-`BadRequest` transport error. -/
theorem send_safe_message_spec (oracle : Nat → SendOutcome) (text m0 : List Char) :
    (∀ k : Nat, oracle 0 = .badRequest m0 →
      containsSub cantParseEntities m0 = true →
      oracle 1 = .ok k →
      send_safe_message oracle text =
        (.ok k, [⟨text, true⟩, ⟨sanitize_html text, true⟩])) ∧
    (∀ m1 : List Char, oracle 0 = .badRequest m0 →
      containsSub cantParseEntities m0 = true →
      oracle 1 = .badRequest m1 →
      (send_safe_message oracle text).2 =
        [⟨text, true⟩, ⟨sanitize_html text, true⟩, ⟨sanitize_html text, false⟩]) ∧
    (oracle 0 = .badRequest m0 →
      containsSub cantParseEntities m0 = false →
      send_safe_message oracle text = (.error (.badRequest m0), [⟨text, true⟩])) ∧
    (oracle 0 = .otherError m0 →
      send_safe_message oracle text = (.error (.otherError m0), [⟨text, true⟩])) := by
  refine ⟨?_, ?_, ?_, ?_⟩
  · intro k h0 hc h1
    unfold send_safe_message
    rw [h0]
    simp only [hc, if_true]
    rw [h1]
  · intro m1 h0 hc h1
    unfold send_safe_message
    rw [h0]
    simp only [hc, if_true]
    rw [h1]
  · intro h0 hc
    unfold send_safe_message
    rw [h0]
    simp only [hc, Bool.false_eq_true, if_false]
  · intro h0
    unfold send_safe_message
    rw [h0]

/-- Witness for C6: a concrete transport whose first attempt rejects the
markup and whose second succeeds with message id `7`; the gateway returns
id `7` after sending the original and then the sanitized text. -/
theorem send_safe_message_spec_witness :
    send_safe_message
      (fun n => if n == 0 then .badRequest cantParseEntities else .ok 7)
      ("hi".toList) =
      (.ok 7, [⟨"hi".toList, true⟩, ⟨sanitize_html ("hi".toList), true⟩]) :=
  (send_safe_message_spec
    (fun n => if n == 0 then .badRequest cantParseEntities else .ok 7)
    ("hi".toList) cantParseEntities).1 7 rfl (by decide) rfl

/-- Every hard-split piece is a `take maxLen`, hence bounded. -/
theorem hardSplit_bound (m : Nat) (l : List Char) :
    ∀ c ∈ hardSplit m l, c.length ≤ m := by
  induction l using hardSplit.induct m with
  | case1 l hl =>
    intro c hc
    rw [hardSplit, if_pos hl] at hc
    cases hc
  | case2 l hl hm =>
    intro c hc
    rw [hardSplit, if_neg hl, if_pos hm] at hc
    cases hc
  | case3 l hl hm ih =>
    intro c hc
    rw [hardSplit, if_neg hl, if_neg hm] at hc
    rcases List.mem_cons.mp hc with hc2 | hc2
    · simp [hc2, List.length_take_le]
    · exact ih c hc2

/-- The sentence-packing loop keeps every emitted chunk and the running
sub-chunk within the maximum (including through the stale-sub-chunk slip,
which leaves the bounded sub-chunk unchanged). -/
theorem sentLoop_bound (maxLen : Nat) :
    ∀ (ss final : List (List Char)) (sub : List Char),
      (∀ c ∈ final, c.length ≤ maxLen) → sub.length ≤ maxLen →
      (∀ c ∈ (sentLoop maxLen ss final sub).1, c.length ≤ maxLen) ∧
      (sentLoop maxLen ss final sub).2.length ≤ maxLen := by
  intro ss
  induction ss with
  | nil =>
    intro final sub hf hsub
    exact ⟨hf, hsub⟩
  | cons s rest ih =>
    intro final sub hf hsub
    have hf1 : ∀ c ∈ (if sub.isEmpty then final else final ++ [sub]), c.length ≤ maxLen := by
      by_cases hse : sub.isEmpty
      · rw [if_pos hse]; exact hf
      · rw [if_neg hse]
        intro c hc
        rcases List.mem_append.mp hc with hc | hc
        · exact hf c hc
        · simp only [List.mem_singleton] at hc
          exact hc ▸ hsub
    unfold sentLoop
    by_cases hov : sub.length + s.length + 1 > maxLen
    · rw [if_pos hov]
      by_cases hbig : s.length > maxLen
      · rw [if_pos hbig]
        refine ih _ sub ?_ hsub
        intro c hc
        rcases List.mem_append.mp hc with hc | hc
        · exact hf1 c hc
        · exact hardSplit_bound maxLen s c hc
      · rw [if_neg hbig]
        exact ih _ s hf1 (by omega)
    · rw [if_neg hov]
      refine ih final _ hf ?_
      by_cases hse : sub.isEmpty
      · rw [if_pos hse]
        omega
      · rw [if_neg hse]
        simp only [List.length_append, List.length_cons]
        omega

/-- Every chunk produced by the sentence-split phase is bounded. -/
theorem sentencePack_bound (maxLen : Nat) (chunk : List Char) :
    ∀ c ∈ sentencePack maxLen chunk, c.length ≤ maxLen := by
  intro c hc
  unfold sentencePack at hc
  have h := sentLoop_bound maxLen (sentSplit chunk) [] [] (by intro c hc; cases hc) (by simp)
  by_cases hse : (sentLoop maxLen (sentSplit chunk) [] []).2.isEmpty
  · rw [if_pos hse] at hc
    exact h.1 c hc
  · rw [if_neg hse] at hc
    rcases List.mem_append.mp hc with hc | hc
    · exact h.1 c hc
    · simp only [List.mem_singleton] at hc
      exact hc ▸ h.2

/-- Every final chunk is bounded: fitting first-phase chunks pass through,
oversized ones go through the sentence-split phase. -/
theorem finalChunks_bound (text : List Char) (maxLen : Nat) :
    ∀ c ∈ finalChunks text maxLen, c.length ≤ maxLen := by
  intro c hc
  unfold finalChunks at hc
  simp only [List.mem_flatten, List.mem_map] at hc
  obtain ⟨l, ⟨c0, _hc0, hl⟩, hcl⟩ := hc
  by_cases hle : c0.length ≤ maxLen
  · rw [← hl, if_pos hle] at hcl
    simp only [List.mem_singleton] at hcl
    exact hcl ▸ hle
  · rw [← hl, if_neg hle] at hcl
    exact sentencePack_bound maxLen c0 c hcl

/-- C3 as amended: for every text and `maxLength > 0`, every chunk content
produced by the Message Chunker has length at most `maxLength` before the
title/part-label prefix is prepended (the sent message, prefix included, can
exceed the bound — see the counterexample). -/
theorem chunk_contents_bound (text : List Char) (maxLen : Nat) (_hpos : 0 < maxLen) :
    (chunk_contents text maxLen).all (fun c => decide (c.length ≤ maxLen)) = true := by
  rw [List.all_eq_true]
  intro c hc
  rw [decide_eq_true_eq]
  unfold chunk_contents at hc
  by_cases hle : text.length ≤ maxLen
  · rw [if_pos hle] at hc
    simp only [List.mem_singleton] at hc
    exact hc ▸ hle
  · rw [if_neg hle] at hc
    exact finalChunks_bound text maxLen c hc

/-- Witness for C3 as amended at a concrete text. -/
theorem chunk_contents_bound_witness :
    (chunk_contents ("aa".toList ++ nlChar :: nlChar :: "bb".toList) 5).all
      (fun c => decide (c.length ≤ 5)) = true :=
  chunk_contents_bound ("aa".toList ++ nlChar :: nlChar :: "bb".toList) 5 (by decide)

/-- C3 counterexample: on the short path the title is prepended to a text
that already has the maximal length, so the single sent message exceeds
`maxLength` once the prefix is attached. -/
theorem sent_message_exceeds_bound :
    ((sent_messages ("abcde".toList) ("T".toList) 5).all
      (fun m => decide (m.length ≤ 5))) = false := by decide

/-- Unfolding `joinParas` over a head that absorbs one character. -/
theorem joinParas_cons_head (c : Char) (s : List Char) (ss : List (List Char)) :
    joinParas ((c :: s) :: ss) = c :: joinParas (s :: ss) := by
  cases ss with
  | nil => rfl
  | cons t ts => rfl

/-- `splitParas` never returns the empty list of blocks. -/
theorem splitParas_ne_nil (l : List Char) : splitParas l ≠ [] := by
  induction l using splitParas.induct with
  | case1 => simp [splitParas]
  | case2 c1 c2 rest hcond ih =>
    simp only [splitParas]
    rw [if_pos hcond]
    simp
  | case3 c1 c2 rest hcond s ss hs ih =>
    simp only [splitParas]
    rw [if_neg hcond, hs]
    simp
  | case4 c1 c2 rest hcond hs ih =>
    simp only [splitParas]
    rw [if_neg hcond, hs]
    simp
  | case5 c => simp [splitParas]

/-- Joining the paragraph split reproduces the text. -/
theorem joinParas_splitParas (l : List Char) : joinParas (splitParas l) = l := by
  induction l using splitParas.induct with
  | case1 => rfl
  | case2 c1 c2 rest hcond ih =>
    simp only [splitParas]
    rw [if_pos hcond]
    obtain ⟨s, ss, hs⟩ : ∃ s ss, splitParas rest = s :: ss := by
      cases hs : splitParas rest with
      | nil => exact absurd hs (splitParas_ne_nil rest)
      | cons s ss => exact ⟨s, ss, rfl⟩
    rw [hs] at ih ⊢
    have hc : c1 = nlChar ∧ c2 = nlChar := by
      simpa [Bool.and_eq_true, beq_iff_eq] using hcond
    rw [hc.1, hc.2]
    show nlChar :: nlChar :: joinParas (s :: ss) = nlChar :: nlChar :: rest
    rw [ih]
  | case3 c1 c2 rest hcond s ss hs ih =>
    simp only [splitParas]
    rw [if_neg hcond, hs]
    rw [hs] at ih
    rw [joinParas_cons_head, ih]
  | case4 c1 c2 rest hcond hs ih =>
    exact absurd hs (splitParas_ne_nil (c2 :: rest))
  | case5 c => rfl

/-- Joining after merging two adjacent blocks with the separator is joining
with the blocks kept separate. -/
theorem joinParas_merge (xs : List (List Char)) (a b : List Char)
    (ys : List (List Char)) :
    joinParas (xs ++ (a ++ nlChar :: nlChar :: b) :: ys) =
      joinParas (xs ++ a :: b :: ys) := by
  induction xs with
  | nil =>
    cases ys with
    | nil =>
      show a ++ nlChar :: nlChar :: b = a ++ nlChar :: nlChar :: joinParas [b]
      rfl
    | cons y ys' =>
      show (a ++ nlChar :: nlChar :: b) ++ nlChar :: nlChar :: joinParas (y :: ys') =
        a ++ nlChar :: nlChar :: joinParas (b :: y :: ys')
      rw [List.append_assoc]
      rfl
  | cons x xs' ih =>
    have h1 : joinParas (x :: (xs' ++ (a ++ nlChar :: nlChar :: b) :: ys)) =
        x ++ nlChar :: nlChar :: joinParas (xs' ++ (a ++ nlChar :: nlChar :: b) :: ys) := by
      cases hxs : xs' ++ (a ++ nlChar :: nlChar :: b) :: ys with
      | nil => cases (List.append_ne_nil_of_right_ne_nil xs' (by simp)) hxs
      | cons t ts => rfl
    have h2 : joinParas (x :: (xs' ++ a :: b :: ys)) =
        x ++ nlChar :: nlChar :: joinParas (xs' ++ a :: b :: ys) := by
      cases hxs : xs' ++ a :: b :: ys with
      | nil => cases (List.append_ne_nil_of_right_ne_nil xs' (by simp)) hxs
      | cons t ts => rfl
    show joinParas (x :: (xs' ++ (a ++ nlChar :: nlChar :: b) :: ys)) =
      joinParas (x :: (xs' ++ a :: b :: ys))
    rw [h1, h2, ih]

/-- The first step of the paragraph-packing loop always turns the first
paragraph into the running chunk. -/
theorem packLoop_start (maxLen : Nat) (p : List Char) (ps : List (List Char)) :
    packLoop maxLen (p :: ps) [] [] = packLoop maxLen ps [] p := by
  rw [packLoop.eq_2]
  by_cases hov : ([] : List Char).length + p.length + 2 > maxLen
  · rw [if_pos hov]
    rfl
  · rw [if_neg hov]
    rfl

/-- The paragraph-packing loop preserves the paragraph-joined text: chunk
boundaries stand for the two-newline separator (given a nonempty running
chunk and nonempty pending paragraphs, the source's pattern of `if
current_chunk:` truthiness tests never drops a separator). -/
theorem packLoop_join (maxLen : Nat) :
    ∀ (ps chunks : List (List Char)) (cur : List Char), cur ≠ [] →
      (∀ p ∈ ps, p ≠ []) →
      joinParas (packLoop maxLen ps chunks cur) = joinParas (chunks ++ cur :: ps) := by
  intro ps
  induction ps with
  | nil =>
    intro chunks cur hcur _
    unfold packLoop
    rw [if_neg (by simpa [List.isEmpty_iff] using hcur)]
  | cons p ps' ih =>
    intro chunks cur hcur hps
    have hp : p ≠ [] := hps p (List.mem_cons_self p ps')
    have hps' : ∀ q ∈ ps', q ≠ [] := fun q hq => hps q (List.mem_cons_of_mem p hq)
    have hcurE : cur.isEmpty = false := by simpa [List.isEmpty_iff] using hcur
    unfold packLoop
    by_cases hov : cur.length + p.length + 2 > maxLen
    · rw [if_pos hov, hcurE]
      simp only [Bool.false_eq_true, if_false]
      rw [ih (chunks ++ [cur]) p hp hps', List.append_assoc, List.singleton_append]
    · rw [if_neg hov, hcurE]
      simp only [Bool.false_eq_true, if_false]
      rw [ih chunks (cur ++ nlChar :: nlChar :: p) (by simp) hps']
      exact joinParas_merge chunks cur p ps'

/-- The paragraph-packing loop emits only nonempty chunks when the inputs
are nonempty. -/
theorem packLoop_ne (maxLen : Nat) :
    ∀ (ps chunks : List (List Char)) (cur : List Char), cur ≠ [] →
      (∀ c ∈ chunks, c ≠ []) → (∀ p ∈ ps, p ≠ []) →
      ∀ c ∈ packLoop maxLen ps chunks cur, c ≠ [] := by
  intro ps
  induction ps with
  | nil =>
    intro chunks cur hcur hchunks _
    unfold packLoop
    rw [if_neg (by simpa [List.isEmpty_iff] using hcur)]
    intro c hc
    rcases List.mem_append.mp hc with hc | hc
    · exact hchunks c hc
    · simp only [List.mem_singleton] at hc
      exact hc ▸ hcur
  | cons p ps' ih =>
    intro chunks cur hcur hchunks hps
    have hp : p ≠ [] := hps p (List.mem_cons_self p ps')
    have hps' : ∀ q ∈ ps', q ≠ [] := fun q hq => hps q (List.mem_cons_of_mem p hq)
    have hcurE : cur.isEmpty = false := by simpa [List.isEmpty_iff] using hcur
    unfold packLoop
    by_cases hov : cur.length + p.length + 2 > maxLen
    · rw [if_pos hov, hcurE]
      simp only [Bool.false_eq_true, if_false]
      refine ih (chunks ++ [cur]) p hp ?_ hps'
      intro c hc
      rcases List.mem_append.mp hc with hc | hc
      · exact hchunks c hc
      · simp only [List.mem_singleton] at hc
        exact hc ▸ hcur
    · rw [if_neg hov, hcurE]
      simp only [Bool.false_eq_true, if_false]
      exact ih chunks (cur ++ nlChar :: nlChar :: p) (by simp) hchunks hps'

/-- The paragraph-packing loop keeps every chunk bounded when every pending
paragraph fits with its separator. -/
theorem packLoop_bound (maxLen : Nat) :
    ∀ (ps chunks : List (List Char)) (cur : List Char),
      (∀ p ∈ ps, p.length + 2 ≤ maxLen) →
      (∀ c ∈ chunks, c.length ≤ maxLen) → cur.length ≤ maxLen →
      ∀ c ∈ packLoop maxLen ps chunks cur, c.length ≤ maxLen := by
  intro ps
  induction ps with
  | nil =>
    intro chunks cur _ hchunks hcur
    unfold packLoop
    by_cases hce : cur.isEmpty
    · rw [if_pos hce]
      exact hchunks
    · rw [if_neg hce]
      intro c hc
      rcases List.mem_append.mp hc with hc | hc
      · exact hchunks c hc
      · simp only [List.mem_singleton] at hc
        exact hc ▸ hcur
  | cons p ps' ih =>
    intro chunks cur hps hchunks hcur
    have hp : p.length + 2 ≤ maxLen := hps p (List.mem_cons_self p ps')
    have hps' : ∀ q ∈ ps', q.length + 2 ≤ maxLen :=
      fun q hq => hps q (List.mem_cons_of_mem p hq)
    unfold packLoop
    by_cases hov : cur.length + p.length + 2 > maxLen
    · rw [if_pos hov]
      refine ih _ p hps' ?_ (by omega)
      by_cases hce : cur.isEmpty
      · rw [if_pos hce]
        exact hchunks
      · rw [if_neg hce]
        intro c hc
        rcases List.mem_append.mp hc with hc | hc
        · exact hchunks c hc
        · simp only [List.mem_singleton] at hc
          exact hc ▸ hcur
    · rw [if_neg hov]
      refine ih chunks _ hps' hchunks ?_
      by_cases hce : cur.isEmpty
      · rw [if_pos hce]
        omega
      · rw [if_neg hce]
        simp only [List.length_append, List.length_cons]
        omega

/-- Mapping the second phase over fitting chunks is the identity. -/
theorem flatten_map_id_of_bounded (maxLen : Nat) :
    ∀ (l : List (List Char)), (∀ c ∈ l, c.length ≤ maxLen) →
      (l.map (fun c => if c.length ≤ maxLen then [c] else sentencePack maxLen c)).flatten = l := by
  intro l
  induction l with
  | nil => simp
  | cons c cs ih =>
    intro hb
    have hc : c.length ≤ maxLen := hb c (List.mem_cons_self c cs)
    simp only [List.map_cons, List.flatten_cons, if_pos hc, List.singleton_append]
    rw [ih (fun q hq => hb q (List.mem_cons_of_mem c hq))]

/-- When every first-phase chunk fits, the second phase is the identity. -/
theorem finalChunks_eq_of_bounded (text : List Char) (maxLen : Nat)
    (hb : ∀ c ∈ paraChunks text maxLen, c.length ≤ maxLen) :
    finalChunks text maxLen = paraChunks text maxLen := by
  unfold finalChunks
  exact flatten_map_id_of_bounded maxLen (paraChunks text maxLen) hb

/-- C4 counterexample: concatenating the chunk contents does not reproduce
the text — on `"aa\n\nbb"` with maximum `5` the chunker returns the chunks
`"aa"` and `"bb"`, and their concatenation `"aabb"` has lost the paragraph
separator between them. -/
theorem chunk_concat_loses_separators :
    (chunk_contents ("aa".toList ++ nlChar :: nlChar :: "bb".toList) 5).flatten ≠
      "aa".toList ++ nlChar :: nlChar :: "bb".toList := by decide

/-- C4 as amended: when every double-newline-separated paragraph of the text
is nonempty and fits together with its separator (`length + 2 ≤ maxLength`),
the chunker produces only nonempty chunks and the chunks joined with the
paragraph separator reproduce the original text exactly; plain concatenation
drops the separators at the chunk boundaries (see the counterexample), and a
text with oversized or empty paragraphs can additionally lose whitespace or
duplicate a stale sub-chunk in the sentence-split phase. -/
theorem chunk_contents_join (text : List Char) (maxLen : Nat)
    (hp : ∀ p ∈ splitParas text, p ≠ [] ∧ p.length + 2 ≤ maxLen) :
    joinParas (chunk_contents text maxLen) = text ∧
    (chunk_contents text maxLen).all (fun c => !c.isEmpty) = true := by
  have hne : ∀ p ∈ splitParas text, p ≠ [] := fun p h => (hp p h).1
  have hfit : ∀ p ∈ splitParas text, p.length + 2 ≤ maxLen := fun p h => (hp p h).2
  obtain ⟨p0, ps0, hsplit⟩ : ∃ s ss, splitParas text = s :: ss := by
    cases hs : splitParas text with
    | nil => exact absurd hs (splitParas_ne_nil text)
    | cons s ss => exact ⟨s, ss, rfl⟩
  have hp0mem : p0 ∈ splitParas text := by
    rw [hsplit]; exact List.mem_cons_self p0 ps0
  have hmem' : ∀ q ∈ ps0, q ∈ splitParas text := by
    intro q hq
    rw [hsplit]; exact List.mem_cons_of_mem p0 hq
  have hp0 : p0 ≠ [] := hne p0 hp0mem
  have hjoin0 : joinParas (splitParas text) = text := joinParas_splitParas text
  have htext : text ≠ [] := by
    rw [← hjoin0, hsplit]
    cases ps0 with
    | nil => simpa using hp0
    | cons q qs =>
      show p0 ++ nlChar :: nlChar :: joinParas (q :: qs) ≠ []
      simp
  have hpc : paraChunks text maxLen = packLoop maxLen ps0 [] p0 := by
    unfold paraChunks
    rw [hsplit, packLoop_start]
  unfold chunk_contents
  by_cases hshort : text.length ≤ maxLen
  · rw [if_pos hshort]
    refine ⟨rfl, ?_⟩
    simp [htext]
  · rw [if_neg hshort]
    have hchunks_b : ∀ c ∈ paraChunks text maxLen, c.length ≤ maxLen := by
      rw [hpc]
      apply packLoop_bound maxLen ps0 [] p0
      · exact fun q hq => hfit q (hmem' q hq)
      · intro c hc; cases hc
      · have := hfit p0 hp0mem; omega
    rw [finalChunks_eq_of_bounded text maxLen hchunks_b, hpc]
    constructor
    · rw [packLoop_join maxLen ps0 [] p0 hp0 (fun q hq => hne q (hmem' q hq))]
      rw [List.nil_append, ← hsplit, hjoin0]
    · rw [List.all_eq_true]
      intro c hc
      have hcne := packLoop_ne maxLen ps0 [] p0 hp0 (by intro c hc; cases hc)
        (fun q hq => hne q (hmem' q hq)) c hc
      simpa [List.isEmpty_iff] using hcne

/-- Witness for C4 as amended at a concrete text whose paragraphs all fit. -/
theorem chunk_contents_join_witness :
    joinParas (chunk_contents ("aa".toList ++ nlChar :: nlChar :: "bb".toList) 5) =
      "aa".toList ++ nlChar :: nlChar :: "bb".toList ∧
    (chunk_contents ("aa".toList ++ nlChar :: nlChar :: "bb".toList) 5).all
      (fun c => !c.isEmpty) = true :=
  chunk_contents_join ("aa".toList ++ nlChar :: nlChar :: "bb".toList) 5 (by decide)

/-- A successful literal match pins the pattern head as the input head. -/
theorem matchPre_head {a : Char} {ps l r : List Char}
    (hm : matchPre (a :: ps) l = some r) : a ∈ l := by
  cases l with
  | nil => simp [matchPre] at hm
  | cons c cs =>
    simp only [matchPre] at hm
    by_cases hac : (a == c) = true
    · have : a = c := by simpa using hac
      rw [this]
      exact List.mem_cons_self c cs
    · rw [if_neg hac] at hm
      cases hm

/-- A rewriting scan whose step never fires on plain text is the identity. -/
theorem scanRewrite_id (step : List Char → Option (List Char × List Char))
    (hstep : ∀ l, (∀ c ∈ l, plainChar c = true) → step l = none) :
    ∀ (fuel : Nat) (l : List Char), (∀ c ∈ l, plainChar c = true) →
      scanRewrite step fuel l = l := by
  intro fuel
  induction fuel with
  | zero => intro l _; cases l <;> rfl
  | succ n ih =>
    intro l hl
    cases l with
    | nil => rfl
    | cons c rest =>
      simp only [scanRewrite, hstep (c :: rest) hl]
      rw [ih rest (fun d hd => hl d (List.mem_cons_of_mem c hd))]

/-- `str.replace` with a pattern starting in a non-plain character is the
identity on plain text. -/
theorem replaceAll_id (pat repl l : List Char)
    (hpat : ∃ a ps, pat = a :: ps ∧ plainChar a = false)
    (hl : ∀ c ∈ l, plainChar c = true) : replaceAll pat repl l = l := by
  obtain ⟨a, ps, hkey, ha⟩ := hpat
  unfold replaceAll
  apply scanRewrite_id _ ?_ l.length l hl
  intro l2 hl2
  cases hm : matchPre pat l2 with
  | none => rfl
  | some r =>
    rw [hkey] at hm
    have := hl2 a (matchPre_head hm)
    rw [this] at ha
    cases ha

/-- The attribute un-escape never fires on plain text. -/
theorem attrStep_none (tag l : List Char) (hl : ∀ c ∈ l, plainChar c = true) :
    attrStep tag l = none := by
  unfold attrStep
  cases hm : matchPre (['&', 'l', 't', ';'] ++ tag) l with
  | none => rfl
  | some r =>
    have := hl '&' (matchPre_head hm)
    exact absurd this (by decide)

/-- The attribute un-escape pass is the identity on plain text. -/
theorem attrUnescape_id (tag l : List Char) (hl : ∀ c ∈ l, plainChar c = true) :
    attrUnescape tag l = l := by
  unfold attrUnescape
  apply scanRewrite_id _ ?_ l.length l hl
  intro l2 hl2
  exact attrStep_none tag l2 hl2

/-- One allow-list iteration is the identity on plain text. -/
theorem unescapeTag_id (tag l : List Char) (hl : ∀ c ∈ l, plainChar c = true) :
    unescapeTag l tag = l := by
  unfold unescapeTag
  rw [replaceAll_id (['&', 'l', 't', ';'] ++ tag ++ ['&', 'g', 't', ';'])
    ('<' :: tag ++ ['>']) l
    ⟨'&', ['l', 't', ';'] ++ tag ++ ['&', 'g', 't', ';'], rfl, by decide⟩ hl]
  rw [replaceAll_id (['&', 'l', 't', ';', '/'] ++ tag ++ ['&', 'g', 't', ';'])
    ('<' :: '/' :: tag ++ ['>']) l
    ⟨'&', ['l', 't', ';', '/'] ++ tag ++ ['&', 'g', 't', ';'], rfl, by decide⟩ hl]
  exact attrUnescape_id tag l hl

/-- The allow-list fold is the identity on plain text. -/
theorem foldl_unescapeTag_id (tags : List (List Char)) (l : List Char)
    (hl : ∀ c ∈ l, plainChar c = true) : List.foldl unescapeTag l tags = l := by
  induction tags with
  | nil => rfl
  | cons tag rest ih =>
    simp only [List.foldl_cons]
    rw [unescapeTag_id tag l hl]
    exact ih

/-- The link un-escape never fires on plain text. -/
theorem linkStep_none (l : List Char) (hl : ∀ c ∈ l, plainChar c = true) :
    linkStep l = none := by
  unfold linkStep
  cases hm : matchPre ['&', 'l', 't', ';', 'a'] l with
  | none => rfl
  | some r =>
    have := hl '&' (matchPre_head hm)
    exact absurd this (by decide)

/-- The link un-escape pass is the identity on plain text. -/
theorem linkUnescape_id (l : List Char) (hl : ∀ c ∈ l, plainChar c = true) :
    linkUnescape l = l := by
  unfold linkUnescape
  apply scanRewrite_id _ ?_ l.length l hl
  intro l2 hl2
  exact linkStep_none l2 hl2

/-- An open-tag match cannot start in plain text. -/
theorem tryOpen_none (tag l : List Char) (hl : ∀ c ∈ l, plainChar c = true) :
    tryOpen tag l = none := by
  unfold tryOpen
  cases hm : matchPre ('<' :: tag) l with
  | none => rfl
  | some r =>
    have := hl '<' (matchPre_head hm)
    exact absurd this (by decide)

/-- Paired-keep removal is the identity on plain text. -/
theorem pairedKeep_id (tag l : List Char) (hl : ∀ c ∈ l, plainChar c = true) :
    pairedKeep tag l = l := by
  unfold pairedKeep
  apply scanRewrite_id _ ?_ l.length l hl
  intro l2 hl2
  unfold pairedKeepStep
  rw [tryOpen_none tag l2 hl2]

/-- Open-tag substitution is the identity on plain text. -/
theorem subOpenWith_id (tag repl l : List Char) (hl : ∀ c ∈ l, plainChar c = true) :
    subOpenWith tag repl l = l := by
  unfold subOpenWith
  apply scanRewrite_id _ ?_ l.length l hl
  intro l2 hl2
  unfold openTagStep
  rw [tryOpen_none tag l2 hl2]
  rfl

/-- Close-tag removal is the identity on plain text. -/
theorem removeCloseTag_id (tag l : List Char) (hl : ∀ c ∈ l, plainChar c = true) :
    removeCloseTag tag l = l := by
  unfold removeCloseTag
  exact replaceAll_id _ _ l ⟨'<', _, rfl, by decide⟩ hl

/-- Paired-wrap substitution is the identity on plain text. -/
theorem pairedWrap_id (tag repl l : List Char) (hl : ∀ c ∈ l, plainChar c = true) :
    pairedWrap tag repl l = l := by
  unfold pairedWrap
  apply scanRewrite_id _ ?_ l.length l hl
  intro l2 hl2
  unfold pairedWrapStep
  rw [tryOpen_none tag l2 hl2]

/-- One unsupported-tag rule is the identity on plain text. -/
theorem applyRule_id (rule : List Char × Option (List Char)) (l : List Char)
    (hl : ∀ c ∈ l, plainChar c = true) : applyRule l rule = l := by
  obtain ⟨tag, repl⟩ := rule
  cases repl with
  | none =>
    show removeCloseTag tag (subOpenWith tag [] (pairedKeep tag l)) = l
    rw [pairedKeep_id tag l hl, subOpenWith_id tag [] l hl]
    exact removeCloseTag_id tag l hl
  | some repl =>
    show (if (repl == [nlChar]) = true then subOpenWith tag repl l
      else pairedWrap tag repl l) = l
    by_cases hr : (repl == [nlChar]) = true
    · rw [if_pos hr]
      exact subOpenWith_id tag repl l hl
    · rw [if_neg hr]
      exact pairedWrap_id tag repl l hl

/-- The unsupported-tag fold is the identity on plain text. -/
theorem foldl_applyRule_id (rules : List (List Char × Option (List Char)))
    (l : List Char) (hl : ∀ c ∈ l, plainChar c = true) :
    List.foldl applyRule l rules = l := by
  induction rules with
  | nil => rfl
  | cons rule rest ih =>
    simp only [List.foldl_cons]
    rw [applyRule_id rule l hl]
    exact ih

/-- The math-replacement fold is the identity on plain text, because every
key starts with `<` or a non-ASCII (mojibake) character. -/
theorem foldl_math_id (kvs : List (List Char × List Char)) (l : List Char)
    (hk : ∀ kv ∈ kvs, kv.1 ≠ [] ∧ plainChar (kv.1.headD 'x') = false)
    (hl : ∀ c ∈ l, plainChar c = true) :
    List.foldl (fun t kv => replaceAll kv.1 kv.2 t) l kvs = l := by
  induction kvs with
  | nil => rfl
  | cons kv rest ih =>
    simp only [List.foldl_cons]
    obtain ⟨hne, hhd⟩ := hk kv (List.mem_cons_self kv rest)
    have hpat : ∃ a ps, kv.1 = a :: ps ∧ plainChar a = false := by
      cases hkv : kv.1 with
      | nil => exact absurd hkv hne
      | cons a ps =>
        refine ⟨a, ps, rfl, ?_⟩
        rw [hkv] at hhd
        simpa using hhd
    rw [replaceAll_id kv.1 kv.2 l hpat hl]
    exact ih (fun q hq => hk q (List.mem_cons_of_mem kv hq))

/-- A substring whose pattern starts in a non-plain character does not occur
in plain text. -/
theorem containsSub_head {a : Char} {ps l : List Char}
    (h : containsSub (a :: ps) l = true) : a ∈ l := by
  induction l with
  | nil => simp [containsSub] at h
  | cons c cs ih =>
    simp only [containsSub, Bool.or_eq_true] at h
    rcases h with h | h
    · cases hm : matchPre (a :: ps) (c :: cs) with
      | none => rw [hm] at h; cases h
      | some r => exact matchPre_head hm
    · exact List.mem_cons_of_mem c (ih h)

/-- Table flattening is the identity on plain text. -/
theorem tableFix_id (l : List Char) (hl : ∀ c ∈ l, plainChar c = true) :
    tableFix l = l := by
  unfold tableFix
  rw [if_neg ?_]
  intro hcon
  have := hl '<' (containsSub_head hcon)
  exact absurd this (by decide)

/-- The residual tag strip never fires on plain text. -/
theorem stripStep_none (l : List Char) (hl : ∀ c ∈ l, plainChar c = true) :
    stripStep l = none := by
  cases l with
  | nil => rfl
  | cons c cs =>
    have hc := hl c (List.mem_cons_self c cs)
    have hne : c ≠ '<' := by
      intro he
      rw [he] at hc
      exact absurd hc (by decide)
    unfold stripStep
    split
    · rename_i heq
      cases heq
      exact absurd rfl hne
    · rfl

/-- The residual tag strip is the identity on plain text. -/
theorem stripTags_id (l : List Char) (hl : ∀ c ∈ l, plainChar c = true) :
    stripTags l = l := by
  unfold stripTags
  apply scanRewrite_id _ ?_ l.length l hl
  intro l2 hl2
  exact stripStep_none l2 hl2

/-- Paragraph-break normalization never fires on newline-free plain text. -/
theorem nl1Step_none (l : List Char) (hl : ∀ c ∈ l, plainChar c = true) :
    nl1Step l = none := by
  cases l with
  | nil => rfl
  | cons c cs =>
    have hc := hl c (List.mem_cons_self c cs)
    have hne : (c == nlChar) = false := by
      rw [beq_eq_false_iff_ne]
      intro he
      rw [he] at hc
      exact absurd hc (by decide)
    simp only [nl1Step, hne, Bool.false_eq_true, if_false]

/-- Paragraph-break normalization is the identity on plain text. -/
theorem nlNorm1_id (l : List Char) (hl : ∀ c ∈ l, plainChar c = true) :
    nlNorm1 l = l := by
  unfold nlNorm1
  apply scanRewrite_id _ ?_ l.length l hl
  intro l2 hl2
  exact nl1Step_none l2 hl2

/-- Newline-run collapse never fires on newline-free plain text. -/
theorem nl2Step_none (l : List Char) (hl : ∀ c ∈ l, plainChar c = true) :
    nl2Step l = none := by
  cases l with
  | nil => rfl
  | cons c1 cs =>
    cases cs with
    | nil => rfl
    | cons c2 cs2 =>
      cases cs2 with
      | nil => rfl
      | cons c3 cs3 =>
        have hc := hl c1 (List.mem_cons_self c1 (c2 :: c3 :: cs3))
        have hne : (c1 == nlChar) = false := by
          rw [beq_eq_false_iff_ne]
          intro he
          rw [he] at hc
          exact absurd hc (by decide)
        simp only [nl2Step, hne, Bool.false_eq_true, Bool.false_and, if_false]

/-- Newline-run collapse is the identity on plain text. -/
theorem nlNorm2_id (l : List Char) (hl : ∀ c ∈ l, plainChar c = true) :
    nlNorm2 l = l := by
  unfold nlNorm2
  apply scanRewrite_id _ ?_ l.length l hl
  intro l2 hl2
  exact nl2Step_none l2 hl2

/-- `html.escape` is the identity on plain text. -/
theorem htmlEscape_id (l : List Char) (hl : ∀ c ∈ l, plainChar c = true) :
    htmlEscape l = l := by
  induction l with
  | nil => rfl
  | cons c cs ih =>
    have hc := hl c (List.mem_cons_self c cs)
    have hesc : escapeChar c = [c] := by
      have h1 : (c == '&') = false := by
        cases hb : c == '&'
        · rfl
        · simp [plainChar, hb] at hc
      have h2 : (c == '<') = false := by
        cases hb : c == '<'
        · rfl
        · simp [plainChar, hb] at hc
      have h3 : (c == '>') = false := by
        cases hb : c == '>'
        · rfl
        · simp [plainChar, hb] at hc
      have h4 : (c == quoteChar) = false := by
        cases hb : c == quoteChar
        · rfl
        · simp [plainChar, hb] at hc
      have h5 : (c == aposChar) = false := by
        cases hb : c == aposChar
        · rfl
        · simp [plainChar, hb] at hc
      simp [escapeChar, h1, h2, h3, h4, h5]
    show escapeChar c ++ htmlEscape cs = c :: cs
    rw [hesc, ih (fun d hd => hl d (List.mem_cons_of_mem c hd))]
    rfl

/-- The Markup Sanitizer is the identity on nonempty plain text: no stage's
pattern can fire. -/
theorem sanitize_html_plain_id (l : List Char)
    (hl : ∀ c ∈ l, plainChar c = true) : sanitize_html l = l := by
  by_cases hle : l.isEmpty
  · rw [List.isEmpty_iff.mp hle]
    rfl
  · unfold sanitize_html
    rw [if_neg hle]
    show nlNorm2 (nlNorm1 (stripTags (tableFix (List.foldl
      (fun t kv => replaceAll kv.1 kv.2 t)
      (replaceAll ['&', 'g', 't', ';'] ['>']
        (replaceAll ['&', 'l', 't', ';'] ['<']
          (List.foldl applyRule
            (linkUnescape (List.foldl unescapeTag (htmlEscape l) allowedTags))
            unsupported_tags)))
      math_replacements)))) = l
    rw [htmlEscape_id l hl]
    rw [foldl_unescapeTag_id allowedTags l hl]
    rw [linkUnescape_id l hl]
    rw [foldl_applyRule_id unsupported_tags l hl]
    rw [replaceAll_id _ _ l ⟨'&', _, rfl, by decide⟩ hl]
    rw [replaceAll_id _ _ l ⟨'&', _, rfl, by decide⟩ hl]
    rw [foldl_math_id math_replacements l (by decide) hl]
    rw [tableFix_id l hl]
    rw [stripTags_id l hl]
    rw [nlNorm1_id l hl]
    exact nlNorm2_id l hl

/-- C1 as amended: the Markup Sanitizer is idempotent on plain inputs —
texts of ASCII characters below 128 containing none of `&`, `<`, `>`, the
double quote, the apostrophe or the newline — where it acts as the identity.
On inputs containing markup-significant characters idempotence fails, since
`html.escape` escapes the output's entities again (see the counterexample
at the input `&`). -/
theorem sanitize_html_idempotent_on_plain (l : List Char)
    (hl : ∀ c ∈ l, plainChar c = true) :
    sanitize_html (sanitize_html l) = sanitize_html l := by
  rw [sanitize_html_plain_id l hl, sanitize_html_plain_id l hl]

/-- Witness for C1 as amended at a concrete plain input. -/
theorem sanitize_html_idempotent_on_plain_witness :
    sanitize_html (sanitize_html ("hello".toList)) = sanitize_html ("hello".toList) :=
  sanitize_html_idempotent_on_plain ("hello".toList) (by decide)

end PDFBot
